import Mathlib

/-!
Verification development for the playingpack proxy (packages/cli).

The TypeScript sources are shallowly embedded: pure functions become Lean
functions, stateful classes become explicit state passing, the filesystem
becomes an explicit map from paths to file contents, and wall-clock time is
passed as an explicit parameter.  External machine primitives (SHA-256) are
taken as function parameters.  JSON values are modelled by the inductive
type Json below; JavaScript objects cannot hold duplicate keys, which is
captured by the well-formedness predicate Json.WF.
-/

/-- Model of a JavaScript JSON value.  Numbers are restricted to integers
(the request bodies and cache records handled by the proxy and by these
claims never rely on fractional values).  An object is an insertion-ordered
list of key/value entries, mirroring a JS object literal. -/
inductive Json where
  | null : Json
  | bool (b : Bool) : Json
  | num (n : Int) : Json
  | str (s : String) : Json
  | arr (xs : List Json) : Json
  | obj (entries : List (String × Json)) : Json

/-- Key lookup in a JS object entry list (first occurrence; keys are unique
in any value produced by JSON.parse). -/
def lookupKey (k : String) : List (String × Json) → Option Json
  | [] => none
  | (k2, v) :: es => if k2 = k then some v else lookupKey k es

/-- Membership of a key in a JS object entry list (the JS `in` operator). -/
def containsKey (k : String) : List (String × Json) → Bool
  | [] => false
  | (k2, _) :: es => if k2 = k then true else containsKey k es

/-- Field access `body.k` on a JSON value: undefined (none) when the value
is not an object or lacks the key. -/
def Json.getField (v : Json) (k : String) : Option Json :=
  match v with
  | .obj es => lookupKey k es
  | _ => none

/-- JavaScript truthiness of a JSON value. -/
def jsTruthy : Json → Bool
  | .null => false
  | .bool b => b
  | .num n => n != 0
  | .str s => s != ""
  | .arr _ => true
  | .obj _ => true

/-- One hex digit (lowercase), used for control-character escapes. -/
def hexDigit (n : Nat) : Char :=
  if n < 10 then Char.ofNat (48 + n) else Char.ofNat (87 + n)

/-- Escape of a single character inside a JSON string literal, as produced
by JSON.stringify. -/
def jsonEscapeChar (c : Char) : String :=
  if c = '"' then "\\\""
  else if c = '\\' then "\\\\"
  else if c = '\n' then "\\n"
  else if c = '\r' then "\\r"
  else if c = '\t' then "\\t"
  else if c = Char.ofNat 8 then "\\b"
  else if c = Char.ofNat 12 then "\\f"
  else if c.toNat < 32 then
    "\\u00" ++ String.mk [hexDigit (c.toNat / 16), hexDigit (c.toNat % 16)]
  else String.mk [c]

/-- A JSON string literal with quotes, as produced by JSON.stringify. -/
def jsonQuote (s : String) : String :=
  "\"" ++ String.join (s.data.map jsonEscapeChar) ++ "\""

mutual
/-- Compact JSON serialisation (JSON.stringify with no spacing).  Object
entries are emitted in list order, mirroring JS insertion order.  (The JS
quirk of hoisting integer-like keys is not modelled; no claim depends on
the serialised order across distinct key spellings.) -/
def Json.serialize : Json → String
  | .null => "null"
  | .bool true => "true"
  | .bool false => "false"
  | .num n => toString n
  | .str s => jsonQuote s
  | .arr xs => "[" ++ Json.serializeList xs ++ "]"
  | .obj es => "\x7b" ++ Json.serializeEntries es ++ "\x7d"

/-- Comma-separated serialisation of array elements. -/
def Json.serializeList : List Json → String
  | [] => ""
  | [x] => Json.serialize x
  | x :: y :: xs => Json.serialize x ++ "," ++ Json.serializeList (y :: xs)

/-- Comma-separated serialisation of object entries. -/
def Json.serializeEntries : List (String × Json) → String
  | [] => ""
  | [(k, v)] => jsonQuote k ++ ":" ++ Json.serialize v
  | (k, v) :: e :: es =>
    jsonQuote k ++ ":" ++ Json.serialize v ++ "," ++ Json.serializeEntries (e :: es)
end

mutual
/-- Well-formedness of a JSON value as a JavaScript runtime value: every
object has pairwise-distinct keys.  Any value produced by JSON.parse
satisfies this. -/
def Json.WF : Json → Prop
  | .null => True
  | .bool _ => True
  | .num _ => True
  | .str _ => True
  | .arr xs => Json.WFlist xs
  | .obj es => (es.map Prod.fst).Nodup ∧ Json.WFentries es

/-- All elements of a list of JSON values are well-formed. -/
def Json.WFlist : List Json → Prop
  | [] => True
  | x :: xs => Json.WF x ∧ Json.WFlist xs

/-- All values of an entry list are well-formed. -/
def Json.WFentries : List (String × Json) → Prop
  | [] => True
  | (_, v) :: es => Json.WF v ∧ Json.WFentries es
end

/-- Membership form of Json.WFlist. -/
theorem Json.WFlist_mem {xs : List Json} (h : Json.WFlist xs) :
    ∀ x ∈ xs, Json.WF x := by
  induction xs with
  | nil => intro x hx; cases hx
  | cons y ys ih =>
    intro x hx
    rw [Json.WFlist] at h
    rcases List.mem_cons.mp hx with hx | hx
    · exact hx ▸ h.1
    · exact ih h.2 x hx

/-- Membership form of Json.WFentries. -/
theorem Json.WFentries_mem {es : List (String × Json)} (h : Json.WFentries es) :
    ∀ p ∈ es, Json.WF p.2 := by
  induction es with
  | nil => intro p hp; cases hp
  | cons e es ih =>
    intro p hp
    obtain ⟨k, v⟩ := e
    rw [Json.WFentries] at h
    rcases List.mem_cons.mp hp with hp | hp
    · exact hp ▸ h.1
    · exact ih h.2 p hp

/-! ## Fingerprint and normalizer (cache/hasher.ts) -/

/-- Keys dropped by the normaliser (hasher.ts: stream, request_id,
timestamp). -/
def ignoredKey (k : String) : Bool :=
  k = "stream" || k = "request_id" || k = "timestamp"

/-- Entries kept by the normaliser: those whose key is not ignored. -/
def stripIgnored (es : List (String × Json)) : List (String × Json) :=
  es.filter (fun p => !ignoredKey p.1)

/-- Lexicographic order on character lists by code point; this is the order
JS Array.prototype.sort applies to object keys (identical to UTF-16 order
for keys inside the basic multilingual plane). -/
def lexLeChars : List Char → List Char → Bool
  | [], _ => true
  | _ :: _, [] => false
  | a :: as, b :: bs =>
    if a < b then true
    else if b < a then false
    else lexLeChars as bs

/-- The key order used when sorting object keys. -/
def keyLe (a b : String) : Bool := lexLeChars a.data b.data

/-- Order on entries by key, as a proposition (for List.insertionSort). -/
def entryLe (p q : String × Json) : Prop := keyLe p.1 q.1 = true

instance : DecidableRel entryLe := fun _ _ => instDecidableEqBool _ _

theorem lexLeChars_total : ∀ a b : List Char,
    lexLeChars a b = true ∨ lexLeChars b a = true := by
  intro a
  induction a with
  | nil => intro b; left; rfl
  | cons c cs ih =>
    intro b
    cases b with
    | nil => right; rfl
    | cons d ds =>
      by_cases h1 : c < d
      · left; simp [lexLeChars, h1]
      · by_cases h2 : d < c
        · right; simp [lexLeChars, h2]
        · have hcd : c = d := le_antisymm (not_lt.mp h2) (not_lt.mp h1)
          subst hcd
          rcases ih ds with h | h
          · left; simp [lexLeChars, h]
          · right; simp [lexLeChars, h]

theorem lexLeChars_trans : ∀ a b c : List Char,
    lexLeChars a b = true → lexLeChars b c = true → lexLeChars a c = true := by
  intro a
  induction a with
  | nil => intro b c _ _; rfl
  | cons x xs ih =>
    intro b c hab hbc
    cases b with
    | nil => simp [lexLeChars] at hab
    | cons y ys =>
      cases c with
      | nil => simp [lexLeChars] at hbc
      | cons z zs =>
        simp only [lexLeChars] at hab hbc ⊢
        by_cases hxy : x < y
        · by_cases hyz : y < z
          · simp [lt_trans hxy hyz]
          · by_cases hzy : z < y
            · simp [hyz, hzy] at hbc
            · have : y = z := le_antisymm (not_lt.mp hzy) (not_lt.mp hyz)
              subst this
              simp [hxy]
        · by_cases hyx : y < x
          · simp [hxy, hyx] at hab
          · have hxy2 : x = y := le_antisymm (not_lt.mp hyx) (not_lt.mp hxy)
            subst hxy2
            by_cases hxz : x < z
            · simp [hxz]
            · by_cases hzx : z < x
              · simp [hxz, hzx] at hbc
              · have : x = z := le_antisymm (not_lt.mp hzx) (not_lt.mp hxz)
                subst this
                rw [if_neg (lt_irrefl x), if_neg (lt_irrefl x)] at hab hbc ⊢
                exact ih _ _ hab hbc

theorem lexLeChars_antisymm : ∀ a b : List Char,
    lexLeChars a b = true → lexLeChars b a = true → a = b := by
  intro a
  induction a with
  | nil =>
    intro b _ hba
    cases b with
    | nil => rfl
    | cons d ds => simp [lexLeChars] at hba
  | cons c cs ih =>
    intro b hab hba
    cases b with
    | nil => simp [lexLeChars] at hab
    | cons d ds =>
      simp only [lexLeChars] at hab hba
      by_cases h1 : c < d
      · simp [asymm h1, h1] at hba
      · by_cases h2 : d < c
        · simp [h1, h2] at hab
        · have hcd : c = d := le_antisymm (not_lt.mp h2) (not_lt.mp h1)
          subst hcd
          rw [if_neg (lt_irrefl c), if_neg (lt_irrefl c)] at hab hba
          rw [ih ds hab hba]

theorem keyLe_total (a b : String) : keyLe a b = true ∨ keyLe b a = true :=
  lexLeChars_total a.data b.data

theorem keyLe_trans {a b c : String} (h1 : keyLe a b = true)
    (h2 : keyLe b c = true) : keyLe a c = true :=
  lexLeChars_trans a.data b.data c.data h1 h2

theorem keyLe_antisymm {a b : String} (h1 : keyLe a b = true)
    (h2 : keyLe b a = true) : a = b :=
  String.ext (lexLeChars_antisymm a.data b.data h1 h2)

instance : IsTotal (String × Json) entryLe :=
  ⟨fun p q => keyLe_total p.1 q.1⟩

instance : IsTrans (String × Json) entryLe :=
  ⟨fun _ _ _ h1 h2 => keyLe_trans h1 h2⟩

mutual
/-- Embedding of hasher.ts normalizeBody: mappings are stripped of the
ignored keys and their entries sorted by key, sequences are normalised
element-wise, primitives pass through, null (and JS undefined) maps to
null.  The source sorts the filtered key list and then normalises each
value; here the filtered entries are normalised and then sorted, which
yields the same entry list because sorting compares keys only and the keys
of a JS object are distinct. -/
def normalizeBody : Json → Json
  | .null => .null
  | .bool b => .bool b
  | .num n => .num n
  | .str s => .str s
  | .arr xs => .arr (normalizeList xs)
  | .obj es => .obj (List.insertionSort entryLe (normalizeEntries es))

/-- Element-wise normalisation of an array. -/
def normalizeList : List Json → List Json
  | [] => []
  | x :: xs => normalizeBody x :: normalizeList xs

/-- Normalisation of object entries: ignored keys are dropped and the
remaining values normalised, preserving order (sorting happens at the
object node). -/
def normalizeEntries : List (String × Json) → List (String × Json)
  | [] => []
  | (k, v) :: es =>
    if ignoredKey k then normalizeEntries es
    else (k, normalizeBody v) :: normalizeEntries es
end

/-- Embedding of hasher.ts hashRequest.  SHA-256 is an external machine
primitive and is passed as the parameter sha; the digest is sha applied to
the compact serialisation of the normalised body, so equal serialisations
give equal digests for every hash function. -/
def hashRequest (sha : String → String) (body : Json) : String :=
  sha (Json.serialize (normalizeBody body))

/-! ## The equivalence quantified over by claim C2 -/

/-- Fuel-indexed form of the relation: a and b differ only in the presence
or value of the ignored keys (stream, request_id, timestamp) at any
nesting depth, or in the order of mapping keys at any nesting depth.  For
objects: after dropping ignored keys, the entries of a can be matched
one-to-one (equal key, related value) with a rearrangement of the entries
of b. -/
def JsonRelF : Nat → Json → Json → Prop
  | 0, _, _ => False
  | n + 1, a, b =>
    match a, b with
    | .null, .null => True
    | .bool x, .bool y => x = y
    | .num x, .num y => x = y
    | .str x, .str y => x = y
    | .arr xs, .arr ys => List.Forall₂ (JsonRelF n) xs ys
    | .obj xs, .obj ys => ∃ zs,
        List.Forall₂ (fun p q => p.1 = q.1 ∧ JsonRelF n p.2 q.2)
          (stripIgnored xs) zs ∧ zs.Perm (stripIgnored ys)
    | _, _ => False

/-- Two bodies differ only in the ignored keys or in mapping key order. -/
def JsonRel (a b : Json) : Prop := ∃ n, JsonRelF n a b

/-- Normalisation of a single entry (key kept, value normalised). -/
def normalizeEntry (p : String × Json) : String × Json := (p.1, normalizeBody p.2)

theorem normalizeEntries_eq_map (es : List (String × Json)) :
    normalizeEntries es = (stripIgnored es).map normalizeEntry := by
  induction es with
  | nil => rfl
  | cons e es ih =>
    obtain ⟨k, v⟩ := e
    by_cases hk : ignoredKey k
    · simp [normalizeEntries, stripIgnored, List.filter, hk] at ih ⊢
      exact ih
    · simp [normalizeEntries, stripIgnored, List.filter, hk] at ih ⊢
      exact ⟨rfl, ih⟩

theorem keys_map_normalizeEntry (es : List (String × Json)) :
    (es.map normalizeEntry).map Prod.fst = es.map Prod.fst := by
  induction es with
  | nil => rfl
  | cons e es ih => simp [normalizeEntry, ih]

/-- Strict variant of the entry order, antisymmetric on entry lists with
distinct keys. -/
def entryStrict (p q : String × Json) : Prop := entryLe p q ∧ p.1 ≠ q.1

instance : IsAntisymm (String × Json) entryStrict :=
  ⟨fun _ _ h1 h2 => absurd (keyLe_antisymm h1.1 h2.1) h1.2⟩

/-- Two entry lists that are permutations of one another, both sorted by
key, with duplicate-free keys, are equal. -/
theorem entries_eq_of_perm_sorted {l₁ l₂ : List (String × Json)}
    (hperm : l₁.Perm l₂) (hs₁ : l₁.Sorted entryLe) (hs₂ : l₂.Sorted entryLe)
    (hn₁ : (l₁.map Prod.fst).Nodup) : l₁ = l₂ := by
  have hn₂ : (l₂.map Prod.fst).Nodup := (hperm.map Prod.fst).nodup_iff.mp hn₁
  have hne₁ : l₁.Pairwise (fun p q : String × Json => p.1 ≠ q.1) :=
    List.pairwise_map.mp hn₁
  have hne₂ : l₂.Pairwise (fun p q : String × Json => p.1 ≠ q.1) :=
    List.pairwise_map.mp hn₂
  exact List.eq_of_perm_of_sorted (r := entryStrict) hperm
    (hs₁.and hne₁) (hs₂.and hne₂)

/-- Equality of element-wise normalisation under the value relation. -/
theorem normalizeList_eq_of_forall2 {R : Json → Json → Prop}
    (hrec : ∀ x y, R x y → Json.WF x → Json.WF y →
      normalizeBody x = normalizeBody y) :
    ∀ {xs ys : List Json}, List.Forall₂ R xs ys →
      Json.WFlist xs → Json.WFlist ys → normalizeList xs = normalizeList ys := by
  intro xs ys h
  induction h with
  | nil => intro _ _; rfl
  | cons hxy _ ih =>
    intro wx wy
    rw [Json.WFlist] at wx wy
    simp only [normalizeList]
    rw [hrec _ _ hxy wx.1 wy.1, ih wx.2 wy.2]

/-- Equality of entry-wise normalisation under the entry relation. -/
theorem normalizeEntry_map_eq_of_forall2 {R : Json → Json → Prop}
    (hrec : ∀ x y, R x y → Json.WF x → Json.WF y →
      normalizeBody x = normalizeBody y) :
    ∀ {ps qs : List (String × Json)},
      List.Forall₂ (fun p q : String × Json => p.1 = q.1 ∧ R p.2 q.2) ps qs →
      (∀ p ∈ ps, Json.WF p.2) → (∀ q ∈ qs, Json.WF q.2) →
      ps.map normalizeEntry = qs.map normalizeEntry := by
  intro ps qs h
  induction h with
  | nil => intro _ _; rfl
  | @cons p q ps qs hpq _ ih =>
    intro wp wq
    simp only [List.map_cons]
    have h1 : normalizeEntry p = normalizeEntry q := by
      simp only [normalizeEntry, hpq.1]
      rw [hrec _ _ hpq.2 (wp p (by simp)) (wq q (by simp))]
    rw [h1, ih (fun r hr => wp r (by simp [hr])) (fun r hr => wq r (by simp [hr]))]

/-- Core lemma: related well-formed bodies have equal normal forms. -/
theorem normalizeBody_eq_of_relF :
    ∀ n a b, JsonRelF n a b → Json.WF a → Json.WF b →
      normalizeBody a = normalizeBody b := by
  intro n
  induction n with
  | zero => intro a b h; exact absurd h (by simp [JsonRelF])
  | succ n ih =>
    intro a b h wa wb
    cases a <;> cases b <;> simp only [JsonRelF] at h <;> try exact h.elim
    case null.null => rfl
    case bool.bool x y => rw [h]
    case num.num x y => rw [h]
    case str.str x y => rw [h]
    case arr.arr xs ys =>
      rw [Json.WF] at wa wb
      simp only [normalizeBody]
      rw [normalizeList_eq_of_forall2 ih h wa wb]
    case obj.obj xs ys =>
      rw [Json.WF] at wa wb
      obtain ⟨hnodx, hwx⟩ := wa
      obtain ⟨hnody, hwy⟩ := wb
      obtain ⟨zs, hf, hp⟩ := h
      simp only [normalizeBody]
      have hx : normalizeEntries xs = (stripIgnored xs).map normalizeEntry :=
        normalizeEntries_eq_map xs
      have hy : normalizeEntries ys = (stripIgnored ys).map normalizeEntry :=
        normalizeEntries_eq_map ys
      have hwx2 : ∀ p ∈ stripIgnored xs, Json.WF p.2 := fun p hp2 =>
        Json.WFentries_mem hwx p (List.mem_of_mem_filter hp2)
      have hwz : ∀ q ∈ zs, Json.WF q.2 := fun q hq =>
        Json.WFentries_mem hwy q (List.mem_of_mem_filter (hp.mem_iff.mp hq))
      have hmapeq : (stripIgnored xs).map normalizeEntry = zs.map normalizeEntry :=
        normalizeEntry_map_eq_of_forall2 ih hf hwx2 hwz
      have hperm2 : (normalizeEntries xs).Perm (normalizeEntries ys) := by
        rw [hx, hy, hmapeq]
        exact hp.map normalizeEntry
      have hkeysx : ((normalizeEntries xs).map Prod.fst).Nodup := by
        rw [hx, keys_map_normalizeEntry]
        exact ((List.filter_sublist xs).map Prod.fst).nodup hnodx
      have hsortn : ((List.insertionSort entryLe (normalizeEntries xs)).map
          Prod.fst).Nodup :=
        (((List.perm_insertionSort entryLe (normalizeEntries xs)).map
          Prod.fst).nodup_iff).mpr hkeysx
      have hpermsort : (List.insertionSort entryLe (normalizeEntries xs)).Perm
          (List.insertionSort entryLe (normalizeEntries ys)) :=
        ((List.perm_insertionSort entryLe (normalizeEntries xs)).trans
          hperm2).trans (List.perm_insertionSort entryLe (normalizeEntries ys)).symm
      rw [entries_eq_of_perm_sorted hpermsort
        (List.sorted_insertionSort entryLe (normalizeEntries xs))
        (List.sorted_insertionSort entryLe (normalizeEntries ys)) hsortn]

/-- C2: for all request bodies a and b that differ only in the presence or
value of the keys stream, request_id, timestamp (at any nesting depth) or
only in the order of mapping keys (at any nesting depth), hashRequest a
equals hashRequest b (for any digest function, in particular SHA-256). -/
theorem hashRequest_insensitive (sha : String → String) (a b : Json)
    (ha : Json.WF a) (hb : Json.WF b) (h : JsonRel a b) :
    hashRequest sha a = hashRequest sha b := by
  obtain ⟨n, hn⟩ := h
  unfold hashRequest
  rw [normalizeBody_eq_of_relF n a b hn ha hb]

/-- Witness for C2 at concrete bodies: the left body has a stream flag and
keys in order b, a; the right body drops stream and lists a before b. -/
theorem hashRequest_insensitive_witness :
    Json.WF (Json.obj [("stream", .bool true), ("b", .num 1), ("a", .num 2)]) ∧
    Json.WF (Json.obj [("a", .num 2), ("b", .num 1)]) ∧
    JsonRel (Json.obj [("stream", .bool true), ("b", .num 1), ("a", .num 2)])
      (Json.obj [("a", .num 2), ("b", .num 1)]) ∧
    hashRequest id (Json.obj [("stream", .bool true), ("b", .num 1), ("a", .num 2)])
      = hashRequest id (Json.obj [("a", .num 2), ("b", .num 1)]) := by
  have ha : Json.WF (Json.obj [("stream", .bool true), ("b", .num 1), ("a", .num 2)]) := by
    rw [Json.WF]
    refine ⟨by decide, ?_⟩
    simp [Json.WFentries, Json.WF]
  have hb : Json.WF (Json.obj [("a", .num 2), ("b", .num 1)]) := by
    rw [Json.WF]
    refine ⟨by decide, ?_⟩
    simp [Json.WFentries, Json.WF]
  have hrel : JsonRel (Json.obj [("stream", .bool true), ("b", .num 1), ("a", .num 2)])
      (Json.obj [("a", .num 2), ("b", .num 1)]) := by
    refine ⟨2, ?_⟩
    simp only [JsonRelF]
    refine ⟨[("b", .num 1), ("a", .num 2)], ?_, ?_⟩
    · have hs : stripIgnored
          [("stream", Json.bool true), ("b", Json.num 1), ("a", Json.num 2)]
          = [("b", Json.num 1), ("a", Json.num 2)] := rfl
      rw [hs]
      exact .cons ⟨rfl, rfl⟩ (.cons ⟨rfl, rfl⟩ .nil)
    · have hs : stripIgnored [("a", Json.num 2), ("b", Json.num 1)]
          = [("a", Json.num 2), ("b", Json.num 1)] := rfl
      rw [hs]
      exact List.Perm.swap _ _ _
  exact ⟨ha, hb, hrel, hashRequest_insensitive id _ _ ha hb hrel⟩

/-! ## Cache store (cache/store.ts)

The filesystem is modelled as a map from paths to file contents.  The
proxy only ever observes a cache file through JSON.parse, so a file's
contents are modelled as either a parseable cache record or corrupt bytes
(garbage, or the prefix left behind by an interrupted write). -/

/-- One recorded SSE chunk: the raw data string and the inter-arrival
delay in milliseconds (shared schema cacheChunkSchema). -/
structure CacheChunk where
  data : String
  delay : Nat
deriving DecidableEq

/-- The request part of a cache record (model and messages extracted from
the request body). -/
structure CachedRequestInfo where
  model : String
  messages : Json

/-- The response part of a cache record. -/
structure CachedResponseInfo where
  status : Nat
  chunks : List CacheChunk

/-- A persisted cache record (shared schema cachedResponseSchema). -/
structure CachedResponse where
  hash : String
  timestamp : String
  request : CachedRequestInfo
  response : CachedResponseInfo

/-- Contents of one cache file as observed through JSON.parse. -/
inductive CacheFileData where
  | record (r : CachedResponse) : CacheFileData
  | corrupt : CacheFileData

/-- A filesystem: a map from file paths to file contents. -/
def CacheFs : Type := String → Option CacheFileData

/-- The empty filesystem. -/
def fsEmpty : CacheFs := fun _ => none

/-- Writing one file. -/
def fsWrite (fs : CacheFs) (path : String) (c : CacheFileData) : CacheFs :=
  fun p => if p = path then some c else fs p

/-- Whether a readable file exists at a path. -/
def fileExists (fs : CacheFs) (path : String) : Bool := (fs path).isSome

/-- The cache file path for a fingerprint: join(cachePath, hash + .json). -/
def cacheFilePathOf (cachePath hash : String) : String :=
  cachePath ++ "/" ++ hash ++ ".json"

/-- Embedding of store.ts cacheExists: access succeeds iff a file is
present at the fingerprint path. -/
def cacheExists (sha : String → String) (fs : CacheFs) (requestBody : Json)
    (cachePath : String) : Bool :=
  fileExists fs (cacheFilePathOf cachePath (hashRequest sha requestBody))

/-- Embedding of store.ts loadCache: readFile then JSON.parse, any error
(missing file or corrupt JSON) is caught and yields null. -/
def loadCache (sha : String → String) (fs : CacheFs) (requestBody : Json)
    (cachePath : String) : Option CachedResponse :=
  match fs (cacheFilePathOf cachePath (hashRequest sha requestBody)) with
  | some (.record r) => some r
  | some .corrupt => none
  | none => none

/-- State of a CacheRecorder instance after start. -/
structure CacheRecorderState where
  cachePath : String
  chunks : List CacheChunk
  lastChunkTime : Nat
  requestBody : Json
  model : String
  hash : String

/-- Embedding of CacheRecorder.start: reset chunks, stamp the clock,
compute the fingerprint and extract the model name. -/
def CacheRecorder.start (sha : String → String) (cachePath : String)
    (requestBody : Json) (now : Nat) : CacheRecorderState :=
  { cachePath := cachePath
    chunks := []
    lastChunkTime := now
    requestBody := requestBody
    hash := hashRequest sha requestBody
    model :=
      match requestBody.getField "model" with
      | some (.str m) => m
      | _ => "unknown" }

/-- Embedding of CacheRecorder.recordChunk: the first chunk gets delay 0,
later chunks the elapsed wall-clock time since the previous chunk. -/
def CacheRecorder.recordChunk (st : CacheRecorderState) (data : String)
    (now : Nat) : CacheRecorderState :=
  { st with
    chunks := st.chunks ++ [⟨data, if st.chunks.length = 0 then 0 else now - st.lastChunkTime⟩]
    lastChunkTime := now }

/-- The record assembled by CacheRecorder.save (nowIso is the wall-clock
timestamp string). -/
def CacheRecorder.buildRecord (st : CacheRecorderState) (statusCode : Nat)
    (nowIso : String) : CachedResponse :=
  { hash := st.hash
    timestamp := nowIso
    request :=
      { model := st.model
        messages :=
          match st.requestBody.getField "messages" with
          | some .null => .arr []
          | some v => v
          | none => .arr [] }
    response := { status := statusCode, chunks := st.chunks } }

/-- Embedding of CacheRecorder.getCachePath. -/
def CacheRecorder.getCachePath (st : CacheRecorderState) : String :=
  cacheFilePathOf st.cachePath st.hash

/-- Filesystem observable when save fails midway: save calls writeFile on
the final path directly, and writeFile creates/truncates the file there
before all bytes are flushed, so an interrupted write leaves a corrupt
file at the final path. -/
def CacheRecorder.midSaveFs (st : CacheRecorderState) (fs : CacheFs) : CacheFs :=
  fsWrite fs (CacheRecorder.getCachePath st) .corrupt

/-- Filesystem after a completed CacheRecorder.save. -/
def CacheRecorder.saveFs (st : CacheRecorderState) (statusCode : Nat)
    (nowIso : String) (fs : CacheFs) : CacheFs :=
  fsWrite fs (CacheRecorder.getCachePath st)
    (.record (CacheRecorder.buildRecord st statusCode nowIso))

/-- The sequence of filesystem states during save: unchanged after mkdir,
then the in-progress writeFile, then the completed write. -/
def CacheRecorder.saveTrace (st : CacheRecorderState) (statusCode : Nat)
    (nowIso : String) (fs : CacheFs) : List CacheFs :=
  [fs, CacheRecorder.midSaveFs st fs, CacheRecorder.saveFs st statusCode nowIso fs]

/-- Embedding of CachePlayer.replay as the list of yielded chunk data
strings: abort i tells whether the aborted flag is observed set while
handling chunk i, in which case playback stops before yielding it. -/
def CachePlayer.replayAux (abort : Nat → Bool) : List CacheChunk → Nat → List String
  | [], _ => []
  | c :: cs, i => if abort i then [] else c.data :: CachePlayer.replayAux abort cs (i + 1)

/-- Chunks yielded by CachePlayer.replay on a cache record. -/
def CachePlayer.replay (cached : CachedResponse) (abort : Nat → Bool) : List String :=
  CachePlayer.replayAux abort cached.response.chunks 0

/-- C1 counterexample: save does not write to a temporary file; the
in-progress write is at the final fingerprint path, so a crash mid-write
leaves a readable (corrupt) file there.  Concrete input: an empty cache
directory, the empty-object request body, digest h. -/
theorem save_midwrite_leaves_file_at_final_path :
    fileExists
      (CacheRecorder.midSaveFs
        (CacheRecorder.start (fun _ => "h") ".playingpack/cache" (Json.obj []) 0)
        fsEmpty)
      (cacheFilePathOf ".playingpack/cache" "h") = true ∧
    (CacheRecorder.midSaveFs
        (CacheRecorder.start (fun _ => "h") ".playingpack/cache" (Json.obj []) 0)
        fsEmpty)
      (cacheFilePathOf ".playingpack/cache" "h") = some .corrupt := by
  constructor
  · rfl
  · rfl

/-- C1 amended: save writes the record directly to the final path
fingerprint.json (no temporary file, no rename); a completed save leaves
the full record there, an interrupted write leaves a readable corrupt
file there, and no other path is touched in either state. -/
theorem save_writes_final_path_directly (sha : String → String)
    (cachePath : String) (body : Json) (t0 : Nat) (feeds : List (String × Nat))
    (statusCode : Nat) (nowIso : String) (fs : CacheFs) :
    (CacheRecorder.saveFs
        (feeds.foldl (fun s dt => CacheRecorder.recordChunk s dt.1 dt.2)
          (CacheRecorder.start sha cachePath body t0)) statusCode nowIso fs)
      (CacheRecorder.getCachePath
        (feeds.foldl (fun s dt => CacheRecorder.recordChunk s dt.1 dt.2)
          (CacheRecorder.start sha cachePath body t0)))
      = some (.record (CacheRecorder.buildRecord
          (feeds.foldl (fun s dt => CacheRecorder.recordChunk s dt.1 dt.2)
            (CacheRecorder.start sha cachePath body t0)) statusCode nowIso)) ∧
    (CacheRecorder.midSaveFs
        (feeds.foldl (fun s dt => CacheRecorder.recordChunk s dt.1 dt.2)
          (CacheRecorder.start sha cachePath body t0)) fs)
      (CacheRecorder.getCachePath
        (feeds.foldl (fun s dt => CacheRecorder.recordChunk s dt.1 dt.2)
          (CacheRecorder.start sha cachePath body t0)))
      = some .corrupt ∧
    (∀ p, p ≠ CacheRecorder.getCachePath
        (feeds.foldl (fun s dt => CacheRecorder.recordChunk s dt.1 dt.2)
          (CacheRecorder.start sha cachePath body t0)) →
      (CacheRecorder.saveFs
          (feeds.foldl (fun s dt => CacheRecorder.recordChunk s dt.1 dt.2)
            (CacheRecorder.start sha cachePath body t0)) statusCode nowIso fs) p
        = fs p ∧
      (CacheRecorder.midSaveFs
          (feeds.foldl (fun s dt => CacheRecorder.recordChunk s dt.1 dt.2)
            (CacheRecorder.start sha cachePath body t0)) fs) p = fs p) := by
  refine ⟨?_, ?_, ?_⟩
  · simp [CacheRecorder.saveFs, fsWrite]
  · simp [CacheRecorder.midSaveFs, fsWrite]
  · intro p hp
    constructor
    · simp [CacheRecorder.saveFs, fsWrite, hp]
    · simp [CacheRecorder.midSaveFs, fsWrite, hp]

/-- Witness for the C1 amended theorem at a concrete recorder state and
filesystem. -/
theorem save_writes_final_path_directly_witness :
    (CacheRecorder.saveFs
        ([("data: x\n\n", 5)].foldl
          (fun s dt => CacheRecorder.recordChunk s dt.1 dt.2)
          (CacheRecorder.start (fun _ => "h") "c" (Json.obj []) 0)) 200 "T" fsEmpty)
      (CacheRecorder.getCachePath
        ([("data: x\n\n", 5)].foldl
          (fun s dt => CacheRecorder.recordChunk s dt.1 dt.2)
          (CacheRecorder.start (fun _ => "h") "c" (Json.obj []) 0)))
      = some (.record (CacheRecorder.buildRecord
          ([("data: x\n\n", 5)].foldl
            (fun s dt => CacheRecorder.recordChunk s dt.1 dt.2)
            (CacheRecorder.start (fun _ => "h") "c" (Json.obj []) 0)) 200 "T")) := by
  exact (save_writes_final_path_directly (fun _ => "h") "c" (Json.obj []) 0
    [("data: x\n\n", 5)] 200 "T" fsEmpty).1

/-- Data strings of the chunks accumulated by a sequence of recordChunk
calls: the recorded data is exactly the fed data, in order. -/
theorem recordChunk_fold_data :
    ∀ (feeds : List (String × Nat)) (st : CacheRecorderState),
      ((feeds.foldl (fun s dt => CacheRecorder.recordChunk s dt.1 dt.2) st).chunks).map
          CacheChunk.data
        = st.chunks.map CacheChunk.data ++ feeds.map Prod.fst := by
  intro feeds
  induction feeds with
  | nil => intro st; simp
  | cons f fs ih =>
    intro st
    simp only [List.foldl_cons, List.map_cons]
    rw [ih]
    simp [CacheRecorder.recordChunk]

/-- Replaying with the aborted flag never observed set yields every chunk
data string in order. -/
theorem replayAux_no_abort :
    ∀ (cs : List CacheChunk) (i : Nat),
      CachePlayer.replayAux (fun _ => false) cs i = cs.map CacheChunk.data := by
  intro cs
  induction cs with
  | nil => intro i; rfl
  | cons c cs ih =>
    intro i
    simp [CachePlayer.replayAux, ih]

/-- C9: for every sequence of chunks recorded by CacheRecorder and then
replayed by CachePlayer.replay without abort, the yielded chunk data
strings are the recorded upstream chunks in order, and in particular
their concatenation is byte-identical to the concatenation of the
recorded upstream chunks. -/
theorem record_replay_roundtrip (sha : String → String) (cachePath : String)
    (body : Json) (t0 : Nat) (feeds : List (String × Nat)) (statusCode : Nat)
    (nowIso : String) :
    CachePlayer.replay
        (CacheRecorder.buildRecord
          (feeds.foldl (fun s dt => CacheRecorder.recordChunk s dt.1 dt.2)
            (CacheRecorder.start sha cachePath body t0)) statusCode nowIso)
        (fun _ => false)
      = feeds.map Prod.fst ∧
    String.join
        (CachePlayer.replay
          (CacheRecorder.buildRecord
            (feeds.foldl (fun s dt => CacheRecorder.recordChunk s dt.1 dt.2)
              (CacheRecorder.start sha cachePath body t0)) statusCode nowIso)
          (fun _ => false))
      = String.join (feeds.map Prod.fst) := by
  have h : CachePlayer.replay
      (CacheRecorder.buildRecord
        (feeds.foldl (fun s dt => CacheRecorder.recordChunk s dt.1 dt.2)
          (CacheRecorder.start sha cachePath body t0)) statusCode nowIso)
      (fun _ => false) = feeds.map Prod.fst := by
    rw [CachePlayer.replay, replayAux_no_abort]
    show ((feeds.foldl (fun s dt => CacheRecorder.recordChunk s dt.1 dt.2)
      (CacheRecorder.start sha cachePath body t0)).chunks).map CacheChunk.data = _
    rw [recordChunk_fold_data]
    simp [CacheRecorder.start]
  exact ⟨h, by rw [h]⟩

/-! ## Cache availability and the cache acquisition path (proxy/routes.ts) -/

/-- The process-wide cache mode setting. -/
inductive CacheMode where
  | off : CacheMode
  | read : CacheMode
  | readWrite : CacheMode
deriving DecidableEq

/-- Outcome of the cache-or-LLM decision and (when cache is chosen) the
cache acquisition path of handleChatCompletions, with intervention off.
llmForward stands for proceeding to the upstream call. -/
inductive CacheEngineResult where
  | buffered (content : String) (status : Nat) : CacheEngineResult
  | proxyError (message : String) : CacheEngineResult
  | cacheNotFound : CacheEngineResult
  | llmForward : CacheEngineResult
deriving DecidableEq

/-- Embedding of getFromCache: createPlayer loads the cached record (null
when missing or corrupt, which getFromCache turns into a thrown error,
caught by handleChatCompletions as a 500 proxy_error); otherwise the
whole replay is buffered. -/
def getFromCacheResult (sha : String → String) (fs : CacheFs)
    (cachePath : String) (body : Json) : CacheEngineResult :=
  match loadCache sha fs body cachePath with
  | some r =>
    .buffered (String.join (CachePlayer.replay r (fun _ => false))) r.response.status
  | none => .proxyError "Failed to load cached response"

/-- Embedding of the cache decision in handleChatCompletions with
intervene = false: cache availability is determined by cacheExists (file
presence only), the source defaults to cache when available, a missing
cache in read-only mode yields the 404, and otherwise the request goes to
the LLM path. -/
def chatCacheDecision (mode : CacheMode) (sha : String → String) (fs : CacheFs)
    (cachePath : String) (body : Json) : CacheEngineResult :=
  let hasCache := decide (mode ≠ .off) && cacheExists sha fs body cachePath
  if hasCache then getFromCacheResult sha fs cachePath body
  else if mode = .read then .cacheNotFound
  else .llmForward

/-- C5 counterexample: a corrupt cache file at the fingerprint path is not
treated as a cache miss by the request flow.  With the file present but
corrupt the request fails with the 500 proxy_error, while with no file at
all the same request proceeds to the LLM; the two behaviours differ. -/
theorem corrupt_cache_file_not_a_miss :
    chatCacheDecision .readWrite (fun _ => "h")
        (fsWrite fsEmpty (cacheFilePathOf ".playingpack/cache" "h") .corrupt)
        ".playingpack/cache" (Json.obj [])
      = .proxyError "Failed to load cached response" ∧
    chatCacheDecision .readWrite (fun _ => "h") fsEmpty
        ".playingpack/cache" (Json.obj [])
      = .llmForward ∧
    (CacheEngineResult.proxyError "Failed to load cached response")
      ≠ .llmForward := by
  refine ⟨rfl, rfl, by decide⟩

/-- C5 amended: loadCache does return absent for a corrupt cache file, but
the request flow determines cache availability with cacheExists (file
presence), so a chat-completions request whose fingerprint maps to a
corrupt file selects the cache path, fails to load it, and errors with
the 500 proxy_error instead of behaving like a cache miss. -/
theorem corrupt_cache_file_gives_proxy_error (mode : CacheMode)
    (sha : String → String) (fs : CacheFs) (cachePath : String) (body : Json)
    (hmode : mode ≠ .off)
    (hcorrupt : fs (cacheFilePathOf cachePath (hashRequest sha body))
      = some .corrupt) :
    loadCache sha fs body cachePath = none ∧
    chatCacheDecision mode sha fs cachePath body
      = .proxyError "Failed to load cached response" := by
  have hload : loadCache sha fs body cachePath = none := by
    rw [loadCache, hcorrupt]
  refine ⟨hload, ?_⟩
  have hex : cacheExists sha fs body cachePath = true := by
    rw [cacheExists, fileExists, hcorrupt]
    rfl
  have hcond : (decide (mode ≠ CacheMode.off) && cacheExists sha fs body cachePath)
      = true := by
    rw [hex, Bool.and_true]
    exact decide_eq_true hmode
  simp [chatCacheDecision, hcond, getFromCacheResult, hload]
  intro h2
  rw [h2 hmode] at hex
  exact absurd hex (by decide)

/-- Witness for the C5 amended theorem at a concrete corrupt file. -/
theorem corrupt_cache_file_gives_proxy_error_witness :
    (CacheMode.readWrite ≠ CacheMode.off) ∧
    ((fsWrite fsEmpty (cacheFilePathOf ".playingpack/cache" "h") .corrupt)
        (cacheFilePathOf ".playingpack/cache"
          (hashRequest (fun _ => "h") (Json.obj []))) = some .corrupt) ∧
    loadCache (fun _ => "h")
        (fsWrite fsEmpty (cacheFilePathOf ".playingpack/cache" "h") .corrupt)
        (Json.obj []) ".playingpack/cache" = none := by
  have h1 : CacheMode.readWrite ≠ CacheMode.off := by decide
  have h2 : (fsWrite fsEmpty (cacheFilePathOf ".playingpack/cache" "h") .corrupt)
      (cacheFilePathOf ".playingpack/cache"
        (hashRequest (fun _ => "h") (Json.obj []))) = some .corrupt := rfl
  exact ⟨h1, h2,
    (corrupt_cache_file_gives_proxy_error .readWrite (fun _ => "h")
      (fsWrite fsEmpty (cacheFilePathOf ".playingpack/cache" "h") .corrupt)
      ".playingpack/cache" (Json.obj []) h1 h2).1⟩


/-! ## Session reaper (session/manager.ts cleanup) -/

/-- Session lifecycle states of the session broker. -/
inductive SessionState where
  | pending : SessionState
  | processing : SessionState
  | reviewing : SessionState
  | complete : SessionState
deriving DecidableEq

/-- The slice of a session relevant to the reaper: its map key and its
state. -/
structure SessionEntry where
  id : String
  state : SessionState
deriving DecidableEq

/-- Embedding of SessionManager.cleanup: when more than 100 sessions are
held, the first (length - 100) completed sessions, in map insertion
order, are deleted from the map by id (the toRemove local of the source
is inlined). -/
def SessionManager.cleanup (sessions : List SessionEntry) : List SessionEntry :=
  if sessions.length > 100 then
    sessions.filter (fun s =>
      !((((sessions.filter (fun t => decide (t.state = .complete))).take
          (sessions.length - 100)).map SessionEntry.id).contains s.id))
  else sessions

/-- Bridge between Bool contains and list membership for strings. -/
theorem string_contains_iff (L : List String) (x : String) :
    L.contains x = true ↔ x ∈ L := by
  simp [List.contains_eq_any_beq]

/-- Deleting the entries of a sublist by id removes exactly that sublist,
when ids are duplicate-free. -/
theorem filter_not_ids_length :
    ∀ {sub l : List SessionEntry}, sub.Sublist l →
      (l.map SessionEntry.id).Nodup →
      (l.filter (fun s => !((sub.map SessionEntry.id).contains s.id))).length
        = l.length - sub.length := by
  intro sub l hsub
  induction hsub with
  | slnil => intro _; rfl
  | @cons l₁ l₂ a hsub ih =>
    intro hnd
    simp only [List.map_cons, List.nodup_cons] at hnd
    have hnotmem : a.id ∉ l₁.map SessionEntry.id :=
      fun hmem => hnd.1 ((hsub.map SessionEntry.id).subset hmem)
    have ha : ((l₁.map SessionEntry.id).contains a.id) = false :=
      Bool.eq_false_iff.mpr (fun h => hnotmem ((string_contains_iff _ _).mp h))
    rw [List.filter_cons_of_pos (by rw [ha]; rfl)]
    simp only [List.length_cons]
    rw [ih hnd.2]
    have := hsub.length_le
    omega
  | @cons₂ l₁ l₂ a hsub ih =>
    intro hnd
    simp only [List.map_cons, List.nodup_cons] at hnd
    have ha : (((a :: l₁).map SessionEntry.id).contains a.id) = true :=
      (string_contains_iff _ _).mpr (by simp)
    rw [List.filter_cons_of_neg (by rw [ha]; decide)]
    have hcongr : l₂.filter
        (fun s => !((((a :: l₁).map SessionEntry.id).contains s.id)))
        = l₂.filter (fun s => !(((l₁.map SessionEntry.id).contains s.id))) := by
      apply List.filter_congr
      intro x hx
      have hxa : ¬ (x.id = a.id) := by
        intro hxid
        exact hnd.1 (hxid ▸ List.mem_map_of_mem SessionEntry.id hx)
      simp [List.contains_cons, hxa]
    rw [hcongr, ih hnd.2]
    simp

/-- Counting complement: a predicate and its negation count every element
exactly once. -/
theorem countP_add_countP_compl {α : Type} (p q : α → Bool)
    (h : ∀ a, q a = !(p a)) (l : List α) :
    l.countP p + l.countP q = l.length := by
  induction l with
  | nil => rfl
  | cons a l ih =>
    rcases hb : p a with hf | ht <;>
      simp [List.countP_cons, hb, h a] <;> omega

/-- Exact size of the session map after cleanup, for duplicate-free ids
and more than 100 sessions: only completed sessions are deleted, namely
min(completed, length - 100) of them. -/
theorem cleanup_length_eq (l : List SessionEntry)
    (hnd : (l.map SessionEntry.id).Nodup) (hlen : l.length > 100) :
    (SessionManager.cleanup l).length
      = l.length
        - min (l.countP (fun s => decide (s.state = .complete))) (l.length - 100) := by
  rw [SessionManager.cleanup, if_pos hlen]
  rw [filter_not_ids_length
    ((List.take_sublist _ _).trans (List.filter_sublist l)) hnd]
  rw [List.length_take, ← List.countP_eq_length_filter]
  omega

/-- C4 counterexample: cleanup evicts only completed sessions, so a map of
101 sessions none of which is complete keeps all 101 sessions, violating
the 100-session bound of the claim. -/
theorem cleanup_can_exceed_100 :
    (SessionManager.cleanup
        ((List.range 101).map (fun i => ⟨toString i, SessionState.pending⟩))).length
      = 101 ∧
    ¬ ((SessionManager.cleanup
        ((List.range 101).map (fun i => ⟨toString i, SessionState.pending⟩))).length
      ≤ 100) := by
  constructor
  · decide
  · decide

/-- C4 amended: after cleanup, at most max(100, number of non-complete
sessions) remain (for duplicate-free session ids); the 100-session bound
holds exactly when at least length - 100 of the sessions are complete. -/
theorem cleanup_bound (l : List SessionEntry)
    (hnd : (l.map SessionEntry.id).Nodup) :
    (SessionManager.cleanup l).length
      ≤ max 100 (l.countP (fun s => decide (s.state ≠ .complete))) := by
  have hsum : l.countP (fun s => decide (s.state = SessionState.complete))
      + l.countP (fun s => decide (s.state ≠ SessionState.complete)) = l.length :=
    countP_add_countP_compl _ _
      (fun s => by by_cases hs : s.state = SessionState.complete <;> simp [hs]) l
  by_cases hlen : l.length > 100
  · have heq := cleanup_length_eq l hnd hlen
    rw [heq]
    omega
  · rw [SessionManager.cleanup, if_neg hlen]
    omega

/-- Witness for the C4 amended theorem at a concrete two-session map. -/
theorem cleanup_bound_witness :
    (([⟨"a", SessionState.complete⟩, ⟨"b", SessionState.pending⟩] :
        List SessionEntry).map SessionEntry.id).Nodup ∧
    (SessionManager.cleanup
        [⟨"a", SessionState.complete⟩, ⟨"b", SessionState.pending⟩]).length
      ≤ max 100
        (([⟨"a", SessionState.complete⟩, ⟨"b", SessionState.pending⟩] :
          List SessionEntry).countP (fun s => decide (s.state ≠ .complete))) :=
  ⟨by decide, cleanup_bound _ (by decide)⟩

/-! ## JSON.parse model

The mock-content classifier calls the JS builtin JSON.parse.  It is
modelled here by an executable recursive-descent parser over the
character list of the input.  The model covers the JSON fragment the
proxy actually exchanges: integer numbers (no fractions or exponents)
and string escapes other than unicode escapes; inputs outside this
fragment simply fail to parse. -/

/-- JSON insignificant whitespace. -/
def isJsonWs (c : Char) : Bool := c = ' ' || c = '\t' || c = '\n' || c = '\r'

/-- Skip leading whitespace. -/
def skipWs : List Char → List Char
  | [] => []
  | c :: cs => if isJsonWs c then skipWs cs else c :: cs

/-- ASCII decimal digit test. -/
def isDigitChar (c : Char) : Bool := '0' ≤ c && c ≤ '9'

/-- The opening curly bracket character. -/
def openBraceChar : Char := Char.ofNat 123

/-- The closing curly bracket character. -/
def closeBraceChar : Char := Char.ofNat 125

/-- Single-character JSON string escapes. -/
def escapeCharOf (e : Char) : Option Char :=
  if e = '"' then some '"'
  else if e = '\\' then some '\\'
  else if e = '/' then some '/'
  else if e = 'n' then some '\n'
  else if e = 't' then some '\t'
  else if e = 'r' then some '\r'
  else if e = 'b' then some (Char.ofNat 8)
  else if e = 'f' then some (Char.ofNat 12)
  else none

/-- Parse the body of a JSON string after the opening quote; returns the
decoded characters and the input after the closing quote. -/
def parseStringBody : List Char → Option (List Char × List Char)
  | [] => none
  | c :: cs =>
    if c = '"' then some ([], cs)
    else if c = '\\' then
      match cs with
      | [] => none
      | e :: cs2 =>
        match escapeCharOf e with
        | some d =>
          match parseStringBody cs2 with
          | some (body, rest) => some (d :: body, rest)
          | none => none
        | none => none
    else if c.toNat < 32 then none
    else
      match parseStringBody cs with
      | some (body, rest) => some (c :: body, rest)
      | none => none

/-- Split leading decimal digits from the input. -/
def takeDigits : List Char → (List Char × List Char)
  | [] => ([], [])
  | c :: cs =>
    if isDigitChar c then
      ((c :: (takeDigits cs).1), (takeDigits cs).2)
    else ([], c :: cs)

/-- Numeric value of a digit list. -/
def digitsToNat (ds : List Char) : Nat :=
  ds.foldl (fun acc c => acc * 10 + (c.toNat - 48)) 0

mutual
/-- Parse one JSON value.  The fuel argument strictly decreases on every
recursive call; parseJsonString supplies enough fuel for any input. -/
def parseJsonValue : Nat → List Char → Option (Json × List Char)
  | 0, _ => none
  | fuel + 1, cs =>
    match skipWs cs with
    | [] => none
    | c :: rest =>
      if c = 'n' then
        match rest with
        | 'u' :: 'l' :: 'l' :: r => some (.null, r)
        | _ => none
      else if c = 't' then
        match rest with
        | 'r' :: 'u' :: 'e' :: r => some (.bool true, r)
        | _ => none
      else if c = 'f' then
        match rest with
        | 'a' :: 'l' :: 's' :: 'e' :: r => some (.bool false, r)
        | _ => none
      else if c = '"' then
        match parseStringBody rest with
        | some (body, r) => some (.str (String.mk body), r)
        | none => none
      else if c = '[' then parseJsonArray fuel rest
      else if c = openBraceChar then parseJsonObject fuel rest
      else if c = '-' then
        match takeDigits rest with
        | ([], _) => none
        | (ds, r) => some (.num (-(digitsToNat ds : Int)), r)
      else if isDigitChar c then
        match takeDigits (c :: rest) with
        | (ds, r) => some (.num (digitsToNat ds), r)
      else none

/-- Parse an array after the opening bracket. -/
def parseJsonArray : Nat → List Char → Option (Json × List Char)
  | 0, _ => none
  | fuel + 1, cs =>
    match skipWs cs with
    | ']' :: r => some (.arr [], r)
    | _ =>
      match parseJsonItems fuel cs with
      | some (xs, r) => some (.arr xs, r)
      | none => none

/-- Parse one or more comma-separated array items up to the closing
bracket. -/
def parseJsonItems : Nat → List Char → Option (List Json × List Char)
  | 0, _ => none
  | fuel + 1, cs =>
    match parseJsonValue fuel cs with
    | some (v, r) =>
      match skipWs r with
      | ',' :: r2 =>
        match parseJsonItems fuel r2 with
        | some (vs, r3) => some (v :: vs, r3)
        | none => none
      | ']' :: r2 => some ([v], r2)
      | _ => none
    | none => none

/-- Parse an object after the opening bracket. -/
def parseJsonObject : Nat → List Char → Option (Json × List Char)
  | 0, _ => none
  | fuel + 1, cs =>
    match skipWs cs with
    | [] => none
    | c :: r =>
      if c = closeBraceChar then some (.obj [], r)
      else
        match parseJsonMembers fuel (c :: r) with
        | some (ms, r2) => some (.obj ms, r2)
        | none => none

/-- Parse one or more comma-separated key/value members up to the closing
bracket. -/
def parseJsonMembers : Nat → List Char → Option (List (String × Json) × List Char)
  | 0, _ => none
  | fuel + 1, cs =>
    match skipWs cs with
    | [] => none
    | c :: r =>
      if c = '"' then
        match parseStringBody r with
        | some (key, r2) =>
          match skipWs r2 with
          | ':' :: r3 =>
            match parseJsonValue fuel r3 with
            | some (v, r4) =>
              match skipWs r4 with
              | [] => none
              | c2 :: r5 =>
                if c2 = ',' then
                  match parseJsonMembers fuel r5 with
                  | some (ms, r6) => some ((String.mk key, v) :: ms, r6)
                  | none => none
                else if c2 = closeBraceChar then some ([(String.mk key, v)], r5)
                else none
            | none => none
          | _ => none
        | none => none
      else none
end

/-- Model of the JS builtin JSON.parse: parse one value, allow trailing
whitespace only. -/
def parseJsonString (s : String) : Option Json :=
  match parseJsonValue (2 * s.data.length + 2) s.data with
  | some (v, rest) =>
    match skipWs rest with
    | [] => some v
    | _ :: _ => none
  | none => none

/-- Model of the JS String.prototype.startsWith. -/
def jsStartsWith (s pre : String) : Bool := pre.data.isPrefixOf s.data

/-- No JSON value starts with the character E, so a string accepted by the
parser never has the ERROR: prefix. -/
theorem parseJsonValue_E (fuel : Nat) (rest : List Char) :
    parseJsonValue fuel ('E' :: rest) = none := by
  cases fuel with
  | zero => rfl
  | succ n => rfl

/-- A string accepted by JSON.parse does not start with ERROR:. -/
theorem parse_some_not_error (s : String) (v : Json)
    (h : parseJsonString s = some v) : jsStartsWith s "ERROR:" = false := by
  cases hs : s.data with
  | nil =>
    rw [jsStartsWith, hs]
    rfl
  | cons c cs =>
    by_cases hc : c = 'E'
    · subst hc
      rw [parseJsonString, hs, parseJsonValue_E] at h
      exact absurd h (by simp)
    · rw [jsStartsWith, hs]
      show (('E' == c) && _) = false
      have : ('E' == c) = false := by
        rcases Bool.eq_false_or_eq_true ('E' == c) with hb | hb
        · exact absurd (beq_iff_eq.mp hb).symm hc
        · exact hb
      rw [this, Bool.false_and]


/-! ## Mock content classifier (mock/generator.ts parseMockContent) -/

/-- Model of the JS String.prototype.trim: strip leading and trailing
whitespace. -/
def jsTrim (s : String) : String :=
  String.mk (((s.data.dropWhile isJsonWs).reverse.dropWhile isJsonWs).reverse)

/-- Model of the JS String.prototype.slice with one argument. -/
def jsDrop (s : String) (n : Nat) : String := String.mk (s.data.drop n)

/-- The three recognised mock content forms. -/
inductive MockContentType where
  | text : MockContentType
  | tool_call : MockContentType
  | error : MockContentType
deriving DecidableEq

/-- Result of parseMockContent.  functionName keeps the raw JSON value of
the function key (the source stores parsed.function unchecked). -/
structure MockParsed where
  type : MockContentType
  content : String
  functionName : Option Json

/-- The arguments string computed by the source: JSON.stringify applied to
(parsed.arguments || empty-object); the JS or-else replaces every falsy
arguments value (absent, null, false, 0, empty string) by the empty
object. -/
def falsyArgsOf (es : List (String × Json)) : Json :=
  match lookupKey "arguments" es with
  | some v => if jsTruthy v then v else .obj []
  | none => .obj []

/-- The arguments value the claim describes: parsed.arguments ?? the empty
object, replacing only null and undefined. -/
def nullishArgsOf (es : List (String × Json)) : Json :=
  match lookupKey "arguments" es with
  | some .null => .obj []
  | some v => v
  | none => .obj []

/-- Embedding of parseMockContent: trim; an ERROR: prefix is an error mock
with the prefix stripped and re-trimmed; otherwise JSON-parse the trimmed
content, and a parsed object carrying a function key is a tool call with
the stringified (arguments or empty-object) value; everything else is
plain text. -/
def parseMockContent (content : String) : MockParsed :=
  if jsStartsWith (jsTrim content) "ERROR:" then
    { type := .error, content := jsTrim (jsDrop (jsTrim content) 6), functionName := none }
  else
    match parseJsonString (jsTrim content) with
    | some (.obj es) =>
      if containsKey "function" es then
        { type := .tool_call
          content := Json.serialize (falsyArgsOf es)
          functionName := lookupKey "function" es }
      else { type := .text, content := jsTrim content, functionName := none }
    | _ => { type := .text, content := jsTrim content, functionName := none }

/-- C8 counterexample: the source replaces the arguments value with the
empty object whenever it is JS-falsy, not only when it is null or
undefined.  For the concrete content with arguments false the produced
arguments string is the empty object, while the claim demands the string
false. -/
theorem parseMockContent_falsy_not_nullish :
    parseJsonString (jsTrim "\x7b\"function\":\"f\",\"arguments\":false\x7d")
      = some (.obj [("function", .str "f"), ("arguments", .bool false)]) ∧
    containsKey "function" [("function", Json.str "f"), ("arguments", Json.bool false)]
      = true ∧
    (parseMockContent "\x7b\"function\":\"f\",\"arguments\":false\x7d").content
      = "\x7b\x7d" ∧
    Json.serialize
        (nullishArgsOf [("function", .str "f"), ("arguments", .bool false)])
      = "false" ∧
    (parseMockContent "\x7b\"function\":\"f\",\"arguments\":false\x7d").content
      ≠ Json.serialize
        (nullishArgsOf [("function", .str "f"), ("arguments", .bool false)]) := by
  refine ⟨by rfl, by rfl, by rfl, by rfl, by decide⟩

/-- C8 amended: for every mock content string whose trimmed form parses as
a JSON object containing a function key, parseMockContent classifies it
as a tool call with name equal to the function value and arguments equal
to JSON.stringify(arguments-or-empty-object), where the arguments value
is replaced by the empty object exactly when it is JS-falsy (absent,
null, false, 0 or the empty string), not only when nullish. -/
theorem parseMockContent_tool_call (content : String)
    (es : List (String × Json))
    (hparse : parseJsonString (jsTrim content) = some (.obj es))
    (hfn : containsKey "function" es = true) :
    (parseMockContent content).type = .tool_call ∧
    (parseMockContent content).functionName = lookupKey "function" es ∧
    (parseMockContent content).content = Json.serialize (falsyArgsOf es) := by
  have hpre : jsStartsWith (jsTrim content) "ERROR:" = false :=
    parse_some_not_error (jsTrim content) (.obj es) hparse
  simp [parseMockContent, hpre, hparse, hfn]

/-- Witness for the C8 amended theorem, mirroring the repository unit
test input. -/
theorem parseMockContent_tool_call_witness :
    parseJsonString
        (jsTrim "\x7b\"function\":\"get_weather\",\"arguments\":\x7b\"location\":\"SF\"\x7d\x7d")
      = some (.obj [("function", .str "get_weather"),
          ("arguments", .obj [("location", .str "SF")])]) ∧
    containsKey "function"
        [("function", Json.str "get_weather"),
          ("arguments", Json.obj [("location", Json.str "SF")])] = true ∧
    (parseMockContent
        "\x7b\"function\":\"get_weather\",\"arguments\":\x7b\"location\":\"SF\"\x7d\x7d").type
      = .tool_call ∧
    (parseMockContent
        "\x7b\"function\":\"get_weather\",\"arguments\":\x7b\"location\":\"SF\"\x7d\x7d").content
      = "\x7b\"location\":\"SF\"\x7d" := by
  refine ⟨by rfl, by rfl, ?_, ?_⟩
  · exact (parseMockContent_tool_call
      "\x7b\"function\":\"get_weather\",\"arguments\":\x7b\"location\":\"SF\"\x7d\x7d"
      [("function", Json.str "get_weather"),
        ("arguments", Json.obj [("location", Json.str "SF")])] (by rfl) (by rfl)).1
  · rw [(parseMockContent_tool_call
      "\x7b\"function\":\"get_weather\",\"arguments\":\x7b\"location\":\"SF\"\x7d\x7d"
      [("function", Json.str "get_weather"),
        ("arguments", Json.obj [("location", Json.str "SF")])] (by rfl) (by rfl)).2.2]
    rfl

/-! ## Mock stream generators (mock/generator.ts)

Wall-clock time is passed as nowMs (epoch milliseconds); the source reads
Date.now() when building ids and chunk timestamps, modelled here as one
instant per generator invocation.  The model and delay options take their
defaults, as at every call site in routes.ts. -/

/-- Embedding of generateMockId. -/
def generateMockId (nowMs : Nat) : String := "chatcmpl-mock-" ++ toString nowMs

/-- Chunks of at most n characters (splitIntoTokens helper).  The fuel
argument makes the recursion structural; every call site passes the input
length, which bounds the number of chunks since each chunk consumes at
least one character. -/
def splitCharsChunks (n : Nat) : Nat → List Char → List (List Char)
  | 0, _ => []
  | _, [] => []
  | fuel + 1, c :: cs => (c :: cs.take (n - 1)) :: splitCharsChunks n fuel (cs.drop (n - 1))

/-- Embedding of splitIntoTokens: content cut into chunkSize-character
pieces. -/
def splitIntoTokens (content : String) (chunkSize : Nat) : List String :=
  (splitCharsChunks chunkSize content.data.length content.data).map String.mk

/-- Embedding of createSSEFrame. -/
def createSSEFrame (data : String) : String := "data: " ++ data ++ "\n\n"

/-- Embedding of createChunk: a chat.completion.chunk with an optional
content delta and optional finish reason. -/
def createChunk (id model : String) (content : Option String)
    (finishReason : Option String) (createdSec : Nat) : String :=
  Json.serialize (.obj [
    ("id", .str id),
    ("object", .str "chat.completion.chunk"),
    ("created", .num createdSec),
    ("model", .str model),
    ("choices", .arr [.obj [
      ("index", .num 0),
      ("delta", match content with
        | some s => .obj [("content", .str s)]
        | none => .obj []),
      ("finish_reason", match finishReason with
        | some r => .str r
        | none => .null)]])])

/-- Embedding of createToolCallChunk: the first chunk carries id, type and
the function name with the opening argument fragment; later chunks carry
only an argument fragment. -/
def createToolCallChunk (id model toolCallId functionName argumentsChunk : String)
    (isFirst : Bool) (finishReason : Option String) (createdSec : Nat) : String :=
  Json.serialize (.obj [
    ("id", .str id),
    ("object", .str "chat.completion.chunk"),
    ("created", .num createdSec),
    ("model", .str model),
    ("choices", .arr [.obj [
      ("index", .num 0),
      ("delta", .obj [("tool_calls", .arr [
        if isFirst then
          .obj [("index", .num 0), ("id", .str toolCallId),
            ("type", .str "function"),
            ("function", .obj [("name", .str functionName),
              ("arguments", .str argumentsChunk)])]
        else
          .obj [("index", .num 0),
            ("function", .obj [("arguments", .str argumentsChunk)])]])]),
      ("finish_reason", match finishReason with
        | some r => .str r
        | none => .null)]])])

/-- Embedding of generateMockTextStream as the list of emitted SSE frames:
initial role chunk, one chunk per four-character token, a stop chunk and
the DONE marker. -/
def generateMockTextStream (content : String) (nowMs : Nat) : List String :=
  createSSEFrame (Json.serialize (.obj [
      ("id", .str (generateMockId nowMs)),
      ("object", .str "chat.completion.chunk"),
      ("created", .num (nowMs / 1000)),
      ("model", .str "gpt-4"),
      ("choices", .arr [.obj [
        ("index", .num 0),
        ("delta", .obj [("role", .str "assistant"), ("content", .str "")]),
        ("finish_reason", .null)]])]))
  :: ((splitIntoTokens content 4).map (fun tok =>
        createSSEFrame (createChunk (generateMockId nowMs) "gpt-4" (some tok) none
          (nowMs / 1000)))
    ++ [createSSEFrame (createChunk (generateMockId nowMs) "gpt-4" none (some "stop")
          (nowMs / 1000)),
        createSSEFrame "[DONE]"])

/-- Embedding of generateMockToolCallStream as the list of emitted SSE
frames: initial role chunk, the opening tool-call chunk (with the first
ten-character argument fragment or the empty string), further
argument-only chunks, a tool_calls finish chunk and the DONE marker. -/
def generateMockToolCallStream (functionName args : String) (nowMs : Nat) : List String :=
  createSSEFrame (Json.serialize (.obj [
      ("id", .str (generateMockId nowMs)),
      ("object", .str "chat.completion.chunk"),
      ("created", .num (nowMs / 1000)),
      ("model", .str "gpt-4"),
      ("choices", .arr [.obj [
        ("index", .num 0),
        ("delta", .obj [("role", .str "assistant"), ("content", .null)]),
        ("finish_reason", .null)]])]))
  :: createSSEFrame (createToolCallChunk (generateMockId nowMs) "gpt-4"
      ("call_mock_" ++ toString nowMs) functionName
      ((splitIntoTokens args 10).headD "") true none (nowMs / 1000))
  :: (((splitIntoTokens args 10).drop 1).map (fun ch =>
        createSSEFrame (createToolCallChunk (generateMockId nowMs) "gpt-4"
          ("call_mock_" ++ toString nowMs) functionName ch false none (nowMs / 1000)))
    ++ [createSSEFrame (createChunk (generateMockId nowMs) "gpt-4" none
          (some "tool_calls") (nowMs / 1000)),
        createSSEFrame "[DONE]"])

/-- Embedding of generateErrorResponse (type and code take their defaults
at the call sites in routes.ts). -/
def generateErrorResponse (message errType : String) (code : Json) : String :=
  Json.serialize (.obj [("error", .obj [
    ("message", .str message),
    ("type", .str errType),
    ("param", .null),
    ("code", code)])])

/-- Modelled from the spec: generateNonStreamingResponse belongs to
mock/generator.ts, whose definition is not among the provided sources
(only its unit tests and its callers in routes.ts are).  Per spec section
4.4, non-streaming emission produces a single chat.completion object of
the same shape as the streamed mock: an assistant message with the text
content or null, optional tool_calls, and finish_reason stop or
tool_calls. -/
def generateNonStreamingResponse (content : Option String)
    (toolCalls : Option Json) (nowMs : Nat) : Json :=
  .obj [
    ("id", .str (generateMockId nowMs)),
    ("object", .str "chat.completion"),
    ("created", .num (nowMs / 1000)),
    ("model", .str "gpt-4"),
    ("choices", .arr [.obj [
      ("index", .num 0),
      ("message", .obj ([
        ("role", .str "assistant"),
        ("content", match content with
          | some s => .str s
          | none => .null)]
        ++ (match toolCalls with
          | some tc => [("tool_calls", tc)]
          | none => []))),
      ("finish_reason", .str (match toolCalls with
        | some _ => "tool_calls"
        | none => "stop"))]])]

/-! ## Lifecycle engine tail: buffered response, point 2, emission
(proxy/routes.ts handleChatCompletions, generateMockResponseData and
sendBufferedResponse) -/

/-- Where the buffered response was acquired (the point-1 choice). -/
inductive ResponseSource where
  | llm : ResponseSource
  | cache : ResponseSource
  | mock : ResponseSource
deriving DecidableEq

/-- Point-2 operator actions (shared point2ActionSchema); ret models the
return variant. -/
inductive Point2Action where
  | ret : Point2Action
  | modify (content : String) : Point2Action

/-- The buffered response tuple of handleChatCompletions. -/
structure ResponseData where
  content : String
  status : Nat
  cached : Bool
  mocked : Bool
deriving DecidableEq

/-- The coerced function name used by the generators:
parsed.functionName || mock_function (non-string JSON values are
rendered via their serialisation; no claim exercises that corner). -/
def mockFunctionNameOf (fn : Option Json) : String :=
  match fn with
  | some v =>
    if jsTruthy v then
      match v with
      | .str s => s
      | w => Json.serialize w
    else "mock_function"
  | none => "mock_function"

/-- Embedding of generateMockResponseData: classify the operator content;
an error mock is a 400 JSON error body; otherwise the full mock stream
(or the non-streaming chat.completion object) is buffered with status
200; every branch marks the data mocked. -/
def generateMockResponseData (mockContent : String) (clientStream : Bool)
    (nowMs : Nat) : ResponseData :=
  match (parseMockContent mockContent).type with
  | .error =>
    { content := generateErrorResponse (parseMockContent mockContent).content
        "invalid_request_error" .null
      status := 400, cached := false, mocked := true }
  | .tool_call =>
    if clientStream then
      { content := String.join (generateMockToolCallStream
          (mockFunctionNameOf (parseMockContent mockContent).functionName)
          (parseMockContent mockContent).content nowMs)
        status := 200, cached := false, mocked := true }
    else
      { content := Json.serialize (generateNonStreamingResponse none
          (some (.arr [.obj [
            ("id", .str ("call_mock_" ++ toString nowMs)),
            ("type", .str "function"),
            ("function", .obj [
              ("name", .str (mockFunctionNameOf
                (parseMockContent mockContent).functionName)),
              ("arguments", .str (parseMockContent mockContent).content)])]]))
          nowMs)
        status := 200, cached := false, mocked := true }
  | .text =>
    if clientStream then
      { content := String.join (generateMockTextStream
          (parseMockContent mockContent).content nowMs)
        status := 200, cached := false, mocked := true }
    else
      { content := Json.serialize (generateNonStreamingResponse
          (some (parseMockContent mockContent).content) none nowMs)
        status := 200, cached := false, mocked := true }

/-- Embedding of the point-2 resolution in handleChatCompletions: with
intervention on, a return action keeps the buffer; a modify action
replaces it with freshly generated mock data only when the operator
content is truthy (a non-empty string). -/
def resolvePoint2 (intervene : Bool) (action : Point2Action) (rd : ResponseData)
    (clientStream : Bool) (nowMs : Nat) : ResponseData :=
  if intervene then
    match action with
    | .ret => rd
    | .modify content =>
      if content = "" then rd
      else generateMockResponseData content clientStream nowMs
  else rd

/-- Substring test (JS String.prototype.includes). -/
def listInfix (pat : List Char) : List Char → Bool
  | [] => pat.isEmpty
  | c :: cs => pat.isPrefixOf (c :: cs) || listInfix pat cs

/-- Model of the JS String.prototype.includes. -/
def jsIncludes (s sub : String) : Bool := listInfix sub.data s.data

/-- The response as emitted to the client: status, content type, the two
proxy headers, and the body bytes. -/
structure SentResponse where
  status : Nat
  contentType : String
  cachedHeader : Bool
  mockedHeader : Bool
  sse : Bool
  body : String
deriving DecidableEq

/-- Embedding of sendBufferedResponse: SSE emission when the caller asked
for streaming and the buffer carries SSE framing, JSON emission
otherwise; the x-playingpack-cached and x-playingpack-mocked headers
reflect the cached and mocked flags in both branches. -/
def sendBufferedResponse (rd : ResponseData) (clientStream : Bool) : SentResponse :=
  if clientStream && jsIncludes rd.content "data: " then
    { status := rd.status, contentType := "text/event-stream"
      cachedHeader := rd.cached, mockedHeader := rd.mocked
      sse := true, body := rd.content }
  else
    { status := rd.status, contentType := "application/json"
      cachedHeader := rd.cached, mockedHeader := rd.mocked
      sse := false, body := rd.content }

/-- The observable end state of one chat-completions request: what was
sent, and the response source recorded on the session. -/
structure CompletedRequest where
  sent : SentResponse
  responseSource : ResponseSource
deriving DecidableEq

/-- Embedding of the tail of handleChatCompletions after the buffered
response is acquired: resolve point 2 (when intervening), send the
buffer, then record the point-1 response source on the session (the
responseSource local is never reassigned after point 1). -/
def finishChatCompletion (intervene : Bool) (point1Source : ResponseSource)
    (rd : ResponseData) (action : Point2Action) (clientStream : Bool)
    (nowMs : Nat) : CompletedRequest :=
  { sent := sendBufferedResponse
      (resolvePoint2 intervene action rd clientStream nowMs) clientStream
    responseSource := point1Source }

/-- Projection: the mocked header always reflects the buffered data. -/
theorem sendBufferedResponse_mockedHeader (rd : ResponseData) (clientStream : Bool) :
    (sendBufferedResponse rd clientStream).mockedHeader = rd.mocked := by
  rw [sendBufferedResponse]
  split <;> rfl

/-- Projection: the emitted body is always the buffered content. -/
theorem sendBufferedResponse_body (rd : ResponseData) (clientStream : Bool) :
    (sendBufferedResponse rd clientStream).body = rd.content := by
  rw [sendBufferedResponse]
  split <;> rfl

/-- Every branch of generateMockResponseData marks the data mocked. -/
theorem generateMockResponseData_mocked (c : String) (clientStream : Bool)
    (nowMs : Nat) : (generateMockResponseData c clientStream nowMs).mocked = true := by
  cases htype : (parseMockContent c).type <;>
    simp [generateMockResponseData, htype] <;> split <;> rfl

/-- C3 counterexample: a point-2 modify action whose operator content is
the empty string does not replace the buffered response; the buffer
passes through unchanged and differs from what the mock generator would
synthesise from the empty string. -/
theorem point2_modify_empty_keeps_buffer :
    resolvePoint2 true (.modify "") ⟨"data: X\n\n", 200, false, false⟩ true 0
      = ⟨"data: X\n\n", 200, false, false⟩ ∧
    (⟨"data: X\n\n", 200, false, false⟩ : ResponseData)
      ≠ generateMockResponseData "" true 0 := by
  refine ⟨rfl, by decide⟩

/-- C3 amended: with intervene enabled, a return action passes the
buffered response through unchanged; a modify action discards the buffer
and replaces it with a response re-synthesised from the operator content
by the mock generator for every non-empty content string, while a modify
action with the empty string leaves the buffer unchanged (the source
guards the replacement with a JS truthiness test on the content). -/
theorem point2_resolution (rd : ResponseData) (clientStream : Bool)
    (nowMs : Nat) (content : String) :
    resolvePoint2 true .ret rd clientStream nowMs = rd ∧
    (content ≠ "" → resolvePoint2 true (.modify content) rd clientStream nowMs
        = generateMockResponseData content clientStream nowMs) ∧
    resolvePoint2 true (.modify "") rd clientStream nowMs = rd := by
  refine ⟨rfl, ?_, rfl⟩
  intro hc
  simp [resolvePoint2, hc]

/-- Witness for the C3 amended theorem at concrete operator content. -/
theorem point2_resolution_witness :
    ("hello" : String) ≠ "" ∧
    resolvePoint2 true (.modify "hello") ⟨"data: X\n\n", 200, false, false⟩ true 0
      = generateMockResponseData "hello" true 0 :=
  ⟨by decide,
    (point2_resolution ⟨"data: X\n\n", 200, false, false⟩ true 0 "hello").2.1
      (by decide)⟩

/-- C10: a point-2 modify with non-empty content over an LLM- or
cache-acquired buffer emits the mock-generated bytes with the
x-playingpack-mocked header, yet the session's responseSource is still
the point-1 source (never mock); responseSource is mock exactly when
mock was chosen at point 1. -/
theorem modify_emits_mock_but_source_unchanged (point1Source : ResponseSource)
    (rd : ResponseData) (content : String) (clientStream : Bool) (nowMs : Nat)
    (hsrc : point1Source = .llm ∨ point1Source = .cache) (hc : content ≠ "") :
    (finishChatCompletion true point1Source rd (.modify content) clientStream
        nowMs).sent.mockedHeader = true ∧
    (finishChatCompletion true point1Source rd (.modify content) clientStream
        nowMs).sent.body = (generateMockResponseData content clientStream nowMs).content ∧
    (finishChatCompletion true point1Source rd (.modify content) clientStream
        nowMs).responseSource = point1Source ∧
    (finishChatCompletion true point1Source rd (.modify content) clientStream
        nowMs).responseSource ≠ .mock ∧
    (∀ (s : ResponseSource) (rd2 : ResponseData) (a : Point2Action),
      (finishChatCompletion true s rd2 a clientStream nowMs).responseSource = .mock
        ↔ s = .mock) := by
  have hrd : resolvePoint2 true (.modify content) rd clientStream nowMs
      = generateMockResponseData content clientStream nowMs := by
    simp [resolvePoint2, hc]
  refine ⟨?_, ?_, rfl, ?_, ?_⟩
  · show (sendBufferedResponse
        (resolvePoint2 true (.modify content) rd clientStream nowMs)
        clientStream).mockedHeader = true
    rw [hrd, sendBufferedResponse_mockedHeader, generateMockResponseData_mocked]
  · show (sendBufferedResponse
        (resolvePoint2 true (.modify content) rd clientStream nowMs)
        clientStream).body = _
    rw [hrd, sendBufferedResponse_body]
  · rcases hsrc with h | h <;> subst h <;> simp [finishChatCompletion]
  · intro s rd2 a
    exact Iff.rfl

/-- Witness for C10 at a concrete LLM-acquired buffer modified at
point 2. -/
theorem modify_emits_mock_but_source_unchanged_witness :
    (ResponseSource.llm = .llm ∨ ResponseSource.llm = .cache) ∧
    ("replaced" : String) ≠ "" ∧
    (finishChatCompletion true .llm ⟨"upstream bytes", 200, false, false⟩
        (.modify "replaced") true 0).sent.mockedHeader = true ∧
    (finishChatCompletion true .llm ⟨"upstream bytes", 200, false, false⟩
        (.modify "replaced") true 0).responseSource = .llm :=
  ⟨Or.inl rfl, by decide,
    (modify_emits_mock_but_source_unchanged .llm
      ⟨"upstream bytes", 200, false, false⟩ "replaced" true 0
      (Or.inl rfl) (by decide)).1,
    (modify_emits_mock_but_source_unchanged .llm
      ⟨"upstream bytes", 200, false, false⟩ "replaced" true 0
      (Or.inl rfl) (by decide)).2.2.1⟩

/-! ## Stream-options injection on the LLM path (routes.ts getFromLLM) -/

/-- The engine's notion of a streaming request: body.stream !== false
(any value other than the literal false, including an absent stream
field, requests streaming). -/
def clientStreamOf (body : Json) : Bool :=
  match Json.getField body "stream" with
  | some (.bool false) => false
  | _ => true

/-- The injection guard of getFromLLM: body.stream === true (only the
literal boolean true). -/
def streamIsTrue (body : Json) : Bool :=
  match Json.getField body "stream" with
  | some (.bool true) => true
  | _ => false

/-- Entries produced by spreading a JS value into an object literal:
object entries spread as such, arrays as index-keyed entries, everything
else contributes nothing (the source guards with typeof === object and a
null check). -/
def spreadIndexEntries : List Json → Nat → List (String × Json)
  | [], _ => []
  | v :: vs, i => (toString i, v) :: spreadIndexEntries vs (i + 1)

/-- The spreadable entries of body.stream_options. -/
def streamOptionsEntriesOf (body : Json) : List (String × Json) :=
  match Json.getField body "stream_options" with
  | some (.obj es) => es
  | some (.arr xs) => spreadIndexEntries xs 0
  | _ => []

/-- Replacing the value bound to a key, in place (the spread-then-set
behaviour for a key that is already present). -/
def setEntryValue (k : String) (v : Json) : List (String × Json) → List (String × Json)
  | [] => []
  | (k2, w) :: es =>
    (if k2 = k then (k, v) else (k2, w)) :: setEntryValue k v es

/-- JS spread-then-literal-property semantics: an existing key keeps its
position but takes the new value, a fresh key is appended. -/
def jsSpreadSet (es : List (String × Json)) (k : String) (v : Json) :
    List (String × Json) :=
  if containsKey k es then setEntryValue k v es else es ++ [(k, v)]

/-- Embedding of the bodyWithUsage expression of getFromLLM: inject
stream_options.include_usage = true, preserving caller-provided
stream_options entries, but only when stream is literally true. -/
def bodyWithUsage (body : Json) : Json :=
  if streamIsTrue body then
    match body with
    | .obj es => .obj (jsSpreadSet es "stream_options"
        (.obj (jsSpreadSet (streamOptionsEntriesOf body) "include_usage" (.bool true))))
    | _ => body
  else body

theorem lookupKey_append (k : String) (es fs : List (String × Json)) :
    lookupKey k (es ++ fs)
      = (match lookupKey k es with
        | some v => some v
        | none => lookupKey k fs) := by
  induction es with
  | nil => rfl
  | cons e es ih =>
    obtain ⟨k2, v⟩ := e
    by_cases h : k2 = k <;> simp [lookupKey, h, ih]

theorem lookupKey_none_of_not_contains (k : String) (es : List (String × Json))
    (h : containsKey k es = false) : lookupKey k es = none := by
  induction es with
  | nil => rfl
  | cons e es ih =>
    obtain ⟨k2, v⟩ := e
    by_cases hk : k2 = k
    · rw [containsKey, if_pos hk] at h
      exact absurd h (by decide)
    · rw [containsKey, if_neg hk] at h
      rw [lookupKey, if_neg hk]
      exact ih h

theorem lookupKey_setEntryValue_self (k : String) (v : Json) :
    ∀ es : List (String × Json), containsKey k es = true →
      lookupKey k (setEntryValue k v es) = some v := by
  intro es
  induction es with
  | nil =>
    intro hc
    simp [containsKey] at hc
  | cons e es ih =>
    intro hc
    obtain ⟨k2, w⟩ := e
    by_cases hk : k2 = k
    · rw [setEntryValue, if_pos hk, lookupKey, if_pos rfl]
    · rw [containsKey, if_neg hk] at hc
      rw [setEntryValue, if_neg hk, lookupKey, if_neg hk]
      exact ih hc

theorem lookupKey_setEntryValue_other (k other : String) (v : Json)
    (h : other ≠ k) :
    ∀ es : List (String × Json),
      lookupKey other (setEntryValue k v es) = lookupKey other es := by
  intro es
  induction es with
  | nil => rfl
  | cons e es ih =>
    obtain ⟨k2, w⟩ := e
    by_cases hk : k2 = k
    · subst hk
      have hko : ¬ (k2 = other) := fun he => h he.symm
      rw [setEntryValue, if_pos rfl, lookupKey, if_neg hko, lookupKey, if_neg hko]
      exact ih
    · by_cases hk2 : k2 = other
      · rw [setEntryValue, if_neg hk, lookupKey, if_pos hk2, lookupKey, if_pos hk2]
      · rw [setEntryValue, if_neg hk, lookupKey, if_neg hk2, lookupKey, if_neg hk2]
        exact ih

/-- Setting a key with spread semantics makes it present with the new
value. -/
theorem lookupKey_spreadSet_self (k : String) (v : Json)
    (es : List (String × Json)) : lookupKey k (jsSpreadSet es k v) = some v := by
  rw [jsSpreadSet]
  by_cases hc : containsKey k es = true
  · rw [if_pos hc]
    exact lookupKey_setEntryValue_self k v es hc
  · rw [if_neg hc, lookupKey_append,
      lookupKey_none_of_not_contains k es (Bool.eq_false_iff.mpr hc)]
    rw [lookupKey, if_pos rfl]

/-- Setting a key with spread semantics leaves every other key's binding
unchanged. -/
theorem lookupKey_spreadSet_other (k other : String) (v : Json)
    (es : List (String × Json)) (h : other ≠ k) :
    lookupKey other (jsSpreadSet es k v) = lookupKey other es := by
  rw [jsSpreadSet]
  by_cases hc : containsKey k es = true
  · rw [if_pos hc]
    exact lookupKey_setEntryValue_other k other v h es
  · rw [if_neg hc, lookupKey_append]
    cases hl : lookupKey other es with
    | some w => rfl
    | none =>
      have hko : ¬ (k = other) := fun he => h he.symm
      rw [lookupKey, if_neg hko]
      rfl

/-- C6 counterexample: a body with no stream field requests streaming
(stream !== false) yet is forwarded without any stream_options; the
injection happens only for stream === true. -/
theorem stream_options_not_injected_for_default_stream :
    clientStreamOf (Json.obj [("model", .str "m")]) = true ∧
    bodyWithUsage (Json.obj [("model", .str "m")]) = Json.obj [("model", .str "m")] ∧
    Json.getField (bodyWithUsage (Json.obj [("model", .str "m")])) "stream_options"
      = none := by
  exact ⟨rfl, rfl, rfl⟩

/-- C6 amended: the forwarded body carries the injected
stream_options.include_usage = true, preserving any caller-provided
stream_options entries, exactly when the body has stream === true; for
every other stream value (absent, false, or non-boolean) the body is
forwarded unchanged, in particular stream:false bodies carry no injected
stream_options. -/
theorem bodyWithUsage_injection (body : Json) :
    (streamIsTrue body = false → bodyWithUsage body = body) ∧
    (∀ es, body = .obj es → streamIsTrue body = true →
      Json.getField (bodyWithUsage body) "stream_options"
        = some (.obj (jsSpreadSet (streamOptionsEntriesOf body) "include_usage"
            (.bool true))) ∧
      lookupKey "include_usage"
          (jsSpreadSet (streamOptionsEntriesOf body) "include_usage" (.bool true))
        = some (.bool true) ∧
      (∀ k, k ≠ "include_usage" →
        lookupKey k
            (jsSpreadSet (streamOptionsEntriesOf body) "include_usage" (.bool true))
          = lookupKey k (streamOptionsEntriesOf body))) := by
  constructor
  · intro h
    cases body <;> simp [bodyWithUsage, h]
  · intro es hbody hs
    refine ⟨?_, lookupKey_spreadSet_self _ _ _,
      fun k hk => lookupKey_spreadSet_other _ k _ _ hk⟩
    subst hbody
    rw [bodyWithUsage, if_pos hs]
    rw [Json.getField, lookupKey_spreadSet_self]

/-- Witness for the C6 amended theorem at the spec's example body
stream:true, stream_options:(foo:1). -/
theorem bodyWithUsage_injection_witness :
    streamIsTrue
        (Json.obj [("stream", .bool true), ("stream_options", .obj [("foo", .num 1)])])
      = true ∧
    Json.getField
        (bodyWithUsage (Json.obj [("stream", .bool true),
          ("stream_options", .obj [("foo", .num 1)])])) "stream_options"
      = some (.obj [("foo", .num 1), ("include_usage", .bool true)]) := by
  refine ⟨rfl, ?_⟩
  have h := ((bodyWithUsage_injection
    (Json.obj [("stream", .bool true), ("stream_options", .obj [("foo", .num 1)])])).2
    [("stream", .bool true), ("stream_options", .obj [("foo", .num 1)])] rfl rfl).1
  rw [h]
  rfl

/-! ## SSE stream parser (proxy/sse-parser.ts SSEStreamParser)

The parser input is the stream of already framed SSE event payloads; a
payload is the DONE sentinel, a JSON chunk in OpenAI delta shape, or
malformed JSON (which invokes onError and leaves the state unchanged).
Only the fields the parser reads are modelled. -/

/-- One element of a delta's tool_calls array: index plus the optional
id, function name and argument fragment. -/
structure SSEToolCallDelta where
  index : Nat
  id : Option String
  name : Option String
  args : Option String
deriving DecidableEq

/-- A choice delta: optional content fragment and optional tool-call
deltas. -/
structure SSEDelta where
  content : Option String
  tool_calls : Option (List SSEToolCallDelta)
deriving DecidableEq

/-- One choice: its delta and finish_reason. -/
structure SSEChoice where
  delta : SSEDelta
  finish_reason : Option String
deriving DecidableEq

/-- Token usage payload. -/
structure SSEUsage where
  prompt_tokens : Nat
  completion_tokens : Nat
  total_tokens : Nat
deriving DecidableEq

/-- One parsed SSE chunk. -/
structure SSEChunk where
  choices : List SSEChoice
  usage : Option SSEUsage
deriving DecidableEq

/-- One SSE event payload as the parser sees it. -/
inductive SSEEvent where
  | done : SSEEvent
  | chunk (c : SSEChunk) : SSEEvent
  | malformed : SSEEvent
deriving DecidableEq

/-- A tool call tracked during streaming (InternalToolCall). -/
structure InternalToolCall where
  index : Nat
  id : String
  name : String
  arguments : String
deriving DecidableEq

/-- SSEStreamParser state: tool calls in Map insertion order, accumulated
content, first finish reason, first usage. -/
structure SSEParserState where
  toolCalls : List InternalToolCall
  accumulatedContent : String
  finishReason : Option String
  usage : Option SSEUsage
deriving DecidableEq

/-- Fresh parser state. -/
def initialSSEState : SSEParserState :=
  { toolCalls := [], accumulatedContent := "", finishReason := none, usage := none }

/-- The tool-call map update for one delta: an unseen index appends a new
entry (missing id/name/arguments default to the empty string); a seen
index appends the argument fragment to the existing entry when the
fragment is truthy.  Entries keep Map insertion order. -/
def tcStep (tcl : List InternalToolCall) (tc : SSEToolCallDelta) :
    List InternalToolCall :=
  match tcl.find? (fun itc => itc.index == tc.index) with
  | none =>
    tcl ++ [⟨tc.index, tc.id.getD "", tc.name.getD "", tc.args.getD ""⟩]
  | some _ =>
    match tc.args with
    | some s =>
      if s = "" then tcl
      else tcl.map (fun itc =>
        if itc.index = tc.index then { itc with arguments := itc.arguments ++ s }
        else itc)
    | none => tcl

/-- Handling of one tool-call delta (only the toolCalls field changes). -/
def applyToolCallDelta (st : SSEParserState) (tc : SSEToolCallDelta) :
    SSEParserState :=
  { st with toolCalls := tcStep st.toolCalls tc }

/-- Handling of one choice: truthy content fragments are accumulated,
tool-call deltas are applied in order, and the first truthy
finish_reason is latched. -/
def applyChoice (st : SSEParserState) (ch : SSEChoice) : SSEParserState :=
  let st1 :=
    match ch.delta.content with
    | some s =>
      if s = "" then st
      else { st with accumulatedContent := st.accumulatedContent ++ s }
    | none => st
  let st2 :=
    match ch.delta.tool_calls with
    | some tcs => tcs.foldl applyToolCallDelta st1
    | none => st1
  match ch.finish_reason with
  | some r =>
    if r = "" then st2
    else
      match st2.finishReason with
      | none => { st2 with finishReason := some r }
      | some _ => st2
  | none => st2

/-- Handling of one chunk: every choice in order, then the first usage is
latched. -/
def applyChunk (st : SSEParserState) (c : SSEChunk) : SSEParserState :=
  let st1 := c.choices.foldl applyChoice st
  match c.usage with
  | some u =>
    match st1.usage with
    | none => { st1 with usage := some u }
    | some _ => st1
  | none => st1

/-- Embedding of SSEStreamParser.handleEvent: DONE fires onDone, a chunk
is processed, malformed JSON fires onError; only chunks change state. -/
def handleSSEEvent (st : SSEParserState) (e : SSEEvent) : SSEParserState :=
  match e with
  | .done => st
  | .malformed => st
  | .chunk c => applyChunk st c

/-- The parser state after feeding a whole list of event payloads. -/
def runSSEEvents (events : List SSEEvent) : SSEParserState :=
  events.foldl handleSSEEvent initialSSEState

/-- Assembled tool-call entry (id, type function, and the function name
and arguments). -/
structure AssembledToolCall where
  id : String
  type : String
  name : String
  arguments : String
deriving DecidableEq

/-- The assembled non-streaming message shape. -/
structure AssembledMessage where
  role : String
  content : Option String
  tool_calls : Option (List AssembledToolCall)
deriving DecidableEq

/-- Embedding of getAssembledMessage: with any tool calls observed the
content is null and the tool calls are listed in map order; otherwise
the accumulated content (or null when empty). -/
def getAssembledMessage (st : SSEParserState) : AssembledMessage :=
  if st.toolCalls.isEmpty then
    { role := "assistant"
      content := (if st.accumulatedContent = "" then none
        else some st.accumulatedContent)
      tool_calls := none }
  else
    { role := "assistant", content := none
      tool_calls := some (st.toolCalls.map (fun tc =>
        { id := tc.id, type := "function", name := tc.name,
          arguments := tc.arguments })) }

/-- The tool-call deltas carried by one event, in arrival order. -/
def eventToolCallDeltas (e : SSEEvent) : List SSEToolCallDelta :=
  match e with
  | .chunk c => (c.choices.map (fun ch => (ch.delta.tool_calls).getD [])).flatten
  | _ => []

/-- All tool-call deltas of an event stream, in arrival order. -/
def allToolCallDeltas (events : List SSEEvent) : List SSEToolCallDelta :=
  (events.map eventToolCallDeltas).flatten

/-- One step of first-appearance index collection. -/
def indexStep (acc : List Nat) (tc : SSEToolCallDelta) : List Nat :=
  if tc.index ∈ acc then acc else acc ++ [tc.index]

/-- Indices in order of first appearance. -/
def observedIndices (tcs : List SSEToolCallDelta) : List Nat :=
  tcs.foldl indexStep []

/-- Concatenation, in arrival order, of the argument fragments carried by
the deltas with a given index (an absent fragment contributes the empty
string). -/
def argsConcat (i : Nat) (tcs : List SSEToolCallDelta) : String :=
  String.join ((tcs.filter (fun tc => tc.index == i)).map
    (fun tc => tc.args.getD ""))

theorem stringFoldl_append_eq (l : List String) :
    ∀ s : String, l.foldl (fun r t => r ++ t) s = s ++ String.join l := by
  induction l with
  | nil => intro s; simp [String.join]
  | cons x xs ih =>
    intro s
    have hx : String.join (x :: xs) = x ++ String.join xs := by
      show (x :: xs).foldl (fun r t => r ++ t) "" = _
      rw [List.foldl_cons, ih]
      simp
    rw [hx, List.foldl_cons, ih, String.append_assoc]

theorem stringJoin_append (l1 l2 : List String) :
    String.join (l1 ++ l2) = String.join l1 ++ String.join l2 := by
  show (l1 ++ l2).foldl (fun r t => r ++ t) "" = _
  rw [List.foldl_append, stringFoldl_append_eq l2, stringFoldl_append_eq l1]
  simp

theorem observedIndices_append (tcs : List SSEToolCallDelta)
    (tc : SSEToolCallDelta) :
    observedIndices (tcs ++ [tc]) = indexStep (observedIndices tcs) tc := by
  rw [observedIndices, List.foldl_append]
  rfl

theorem mem_foldl_indexStep (l : List SSEToolCallDelta) :
    ∀ (acc : List Nat) (i : Nat),
      i ∈ l.foldl indexStep acc ↔ i ∈ acc ∨ ∃ tc ∈ l, tc.index = i := by
  induction l with
  | nil => intro acc i; simp
  | cons x xs ih =>
    intro acc i
    rw [List.foldl_cons, ih]
    by_cases h : x.index ∈ acc
    · rw [indexStep, if_pos h]
      constructor
      · rintro (hi | ⟨tc, htc, hidx⟩)
        · exact Or.inl hi
        · exact Or.inr ⟨tc, List.mem_cons_of_mem x htc, hidx⟩
      · rintro (hi | ⟨tc, htc, hidx⟩)
        · exact Or.inl hi
        · rcases List.mem_cons.mp htc with rfl | htc2
          · exact Or.inl (hidx ▸ h)
          · exact Or.inr ⟨tc, htc2, hidx⟩
    · rw [indexStep, if_neg h]
      constructor
      · rintro (hi | ⟨tc, htc, hidx⟩)
        · rcases List.mem_append.mp hi with hi2 | hi2
          · exact Or.inl hi2
          · exact Or.inr ⟨x, List.mem_cons_self x xs, (List.mem_singleton.mp hi2).symm⟩
        · exact Or.inr ⟨tc, List.mem_cons_of_mem x htc, hidx⟩
      · rintro (hi | ⟨tc, htc, hidx⟩)
        · exact Or.inl (List.mem_append.mpr (Or.inl hi))
        · rcases List.mem_cons.mp htc with rfl | htc2
          · exact Or.inl (List.mem_append.mpr (Or.inr (by simp [hidx])))
          · exact Or.inr ⟨tc, htc2, hidx⟩

theorem mem_observedIndices (tcs : List SSEToolCallDelta) (i : Nat) :
    i ∈ observedIndices tcs ↔ ∃ tc ∈ tcs, tc.index = i := by
  rw [observedIndices, mem_foldl_indexStep]
  simp

theorem argsConcat_append (i : Nat) (tcs : List SSEToolCallDelta)
    (tc : SSEToolCallDelta) :
    argsConcat i (tcs ++ [tc])
      = argsConcat i tcs
        ++ (if tc.index == i then tc.args.getD "" else "") := by
  rw [argsConcat, argsConcat, List.filter_append, List.map_append,
    stringJoin_append]
  congr 1
  by_cases h : (tc.index == i) = true
  · simp [List.filter_cons, h, String.join]
  · simp [List.filter_cons, h, String.join]

theorem argsConcat_empty_of_not_observed (i : Nat) (tcs : List SSEToolCallDelta)
    (h : i ∉ observedIndices tcs) : argsConcat i tcs = "" := by
  have hfil : tcs.filter (fun tc => tc.index == i) = [] := by
    rw [List.filter_eq_nil_iff]
    intro tc htc hbeq
    exact h ((mem_observedIndices tcs i).mpr ⟨tc, htc, beq_iff_eq.mp hbeq⟩)
  rw [argsConcat, hfil]
  rfl

/-- Invariant tying the parser's tool-call map to the history of tool-call
deltas processed so far: the map keys are the indices in order of first
appearance, and every entry's arguments string is the concatenation, in
arrival order, of all fragments carried by deltas with its index. -/
def TCInv (tcl : List InternalToolCall) (tcs : List SSEToolCallDelta) : Prop :=
  tcl.map InternalToolCall.index = observedIndices tcs ∧
  ∀ itc ∈ tcl, itc.arguments = argsConcat itc.index tcs

theorem tcStep_inv {tcl : List InternalToolCall} {tcs : List SSEToolCallDelta}
    (tc : SSEToolCallDelta) (h : TCInv tcl tcs) :
    TCInv (tcStep tcl tc) (tcs ++ [tc]) := by
  obtain ⟨hidx, hargs⟩ := h
  cases hf : tcl.find? (fun itc => itc.index == tc.index) with
  | none =>
    have hstep : tcStep tcl tc
        = tcl ++ [⟨tc.index, tc.id.getD "", tc.name.getD "", tc.args.getD ""⟩] := by
      rw [tcStep, hf]
    rw [hstep]
    have hnone := List.find?_eq_none.mp hf
    have hnotmem : tc.index ∉ observedIndices tcs := by
      rw [← hidx]
      intro hm
      obtain ⟨itc, hitc, hidx2⟩ := List.mem_map.mp hm
      exact hnone itc hitc (beq_iff_eq.mpr hidx2)
    constructor
    · rw [List.map_append, hidx, observedIndices_append, indexStep,
        if_neg hnotmem]
      rfl
    · intro itc hitc
      rcases List.mem_append.mp hitc with hmem | hmem
      · rw [argsConcat_append]
        have hne : (tc.index == itc.index) = false :=
          beq_eq_false_iff_ne.mpr (fun he =>
            (hnone itc hmem) (beq_iff_eq.mpr he.symm))
        rw [hne]
        simp [hargs itc hmem]
      · have hit : itc = ⟨tc.index, tc.id.getD "", tc.name.getD "",
            tc.args.getD ""⟩ := List.mem_singleton.mp hmem
        subst hit
        rw [argsConcat_append]
        simp only [beq_self_eq_true, if_true]
        rw [argsConcat_empty_of_not_observed _ _ hnotmem]
        simp
  | some itc0 =>
    have hbeq0 := List.find?_some hf
    have hmem0 : tc.index ∈ observedIndices tcs := by
      rw [← hidx]
      exact List.mem_map.mpr ⟨itc0, List.mem_of_find?_eq_some hf,
        beq_iff_eq.mp hbeq0⟩
    cases ha : tc.args with
    | none =>
      have hstep : tcStep tcl tc = tcl := by
        rw [tcStep, hf, ha]
      rw [hstep]
      constructor
      · rw [hidx, observedIndices_append, indexStep, if_pos hmem0]
      · intro itc hitc
        rw [argsConcat_append, hargs itc hitc, ha]
        split <;> simp
    | some s =>
      by_cases hs : s = ""
      · have hstep : tcStep tcl tc = tcl := by
          rw [tcStep, hf, ha]
          exact if_pos hs
        rw [hstep]
        constructor
        · rw [hidx, observedIndices_append, indexStep, if_pos hmem0]
        · intro itc hitc
          rw [argsConcat_append, hargs itc hitc, ha, hs]
          split <;> simp
      · have hstep : tcStep tcl tc = tcl.map (fun itc =>
            if itc.index = tc.index then
              { itc with arguments := itc.arguments ++ s }
            else itc) := by
          rw [tcStep, hf, ha]
          exact if_neg hs
        rw [hstep]
        constructor
        · have hmapidx : (tcl.map (fun itc =>
              if itc.index = tc.index then
                { itc with arguments := itc.arguments ++ s }
              else itc)).map InternalToolCall.index
              = tcl.map InternalToolCall.index := by
            rw [List.map_map]
            apply List.map_congr_left
            intro itc _
            by_cases hi : itc.index = tc.index <;> simp [hi]
          rw [hmapidx, hidx, observedIndices_append, indexStep, if_pos hmem0]
        · intro itc hitc
          obtain ⟨itc0', hmem', heq⟩ := List.mem_map.mp hitc
          by_cases hi : itc0'.index = tc.index
          · rw [if_pos hi] at heq
            subst heq
            rw [argsConcat_append]
            simp only [hi, beq_self_eq_true, if_true, ha]
            rw [hargs itc0' hmem']
            simp [hi]
          · rw [if_neg hi] at heq
            subst heq
            rw [argsConcat_append]
            have hne : (tc.index == itc0'.index) = false :=
              beq_eq_false_iff_ne.mpr (fun he => hi he.symm)
            rw [hne]
            simp [hargs itc0' hmem']

theorem foldl_tcStep_inv (l : List SSEToolCallDelta) :
    ∀ {tcl : List InternalToolCall} {tcs : List SSEToolCallDelta},
      TCInv tcl tcs → TCInv (l.foldl tcStep tcl) (tcs ++ l) := by
  induction l with
  | nil => intro tcl tcs h; simpa using h
  | cons x xs ih =>
    intro tcl tcs h
    rw [List.foldl_cons]
    have h2 := ih (tcStep_inv x h)
    rwa [List.append_assoc, List.singleton_append] at h2

theorem foldl_applyToolCallDelta_toolCalls (l : List SSEToolCallDelta) :
    ∀ st : SSEParserState,
      (l.foldl applyToolCallDelta st).toolCalls = l.foldl tcStep st.toolCalls := by
  induction l with
  | nil => intro st; rfl
  | cons x xs ih =>
    intro st
    rw [List.foldl_cons, List.foldl_cons, ih]
    rfl

theorem applyChoice_toolCalls (st : SSEParserState) (ch : SSEChoice) :
    (applyChoice st ch).toolCalls
      = ((ch.delta.tool_calls).getD []).foldl tcStep st.toolCalls := by
  obtain ⟨⟨c, t⟩, f⟩ := ch
  cases c <;> cases t <;> cases f <;>
    simp only [applyChoice, Option.getD] <;>
    repeat' first
      | rw [foldl_applyToolCallDelta_toolCalls]
      | split
      | rfl

theorem foldl_applyChoice_toolCalls (chs : List SSEChoice) :
    ∀ st : SSEParserState,
      (chs.foldl applyChoice st).toolCalls
        = ((chs.map (fun ch => (ch.delta.tool_calls).getD [])).flatten).foldl
            tcStep st.toolCalls := by
  induction chs with
  | nil => intro st; rfl
  | cons ch chs ih =>
    intro st
    rw [List.foldl_cons, ih, List.map_cons, List.flatten_cons,
      List.foldl_append, applyChoice_toolCalls]

theorem applyChunk_toolCalls (st : SSEParserState) (c : SSEChunk) :
    (applyChunk st c).toolCalls
      = (eventToolCallDeltas (.chunk c)).foldl tcStep st.toolCalls := by
  obtain ⟨chs, u⟩ := c
  cases u with
  | none =>
    simp only [applyChunk, eventToolCallDeltas]
    rw [foldl_applyChoice_toolCalls]
  | some u =>
    simp only [applyChunk, eventToolCallDeltas]
    cases hu : (chs.foldl applyChoice st).usage <;>
      simp only [hu] <;> rw [← foldl_applyChoice_toolCalls]

theorem runSSE_toolCalls (events : List SSEEvent) :
    ∀ st : SSEParserState,
      (events.foldl handleSSEEvent st).toolCalls
        = ((events.map eventToolCallDeltas).flatten).foldl tcStep st.toolCalls := by
  induction events with
  | nil => intro st; rfl
  | cons e es ih =>
    intro st
    rw [List.foldl_cons, ih, List.map_cons, List.flatten_cons, List.foldl_append]
    congr 1
    cases e with
    | done => rfl
    | malformed => rfl
    | chunk c => exact applyChunk_toolCalls st c

/-- The parser run satisfies the tool-call invariant over the whole event
stream. -/
theorem runSSE_TCInv (events : List SSEEvent) :
    TCInv (runSSEEvents events).toolCalls (allToolCallDeltas events) := by
  have hbase : TCInv ([] : List InternalToolCall) [] :=
    ⟨rfl, by intro _ h; cases h⟩
  have h := foldl_tcStep_inv (allToolCallDeltas events) hbase
  rw [List.nil_append] at h
  rw [runSSEEvents, runSSE_toolCalls]
  exact h

/-- Order on tracked tool calls by index (the order the claim asserts for
the assembled list). -/
def tcIndexLe (a b : InternalToolCall) : Prop := a.index ≤ b.index

instance : DecidableRel tcIndexLe := fun a b => Nat.decLe a.index b.index

/-- The tool-call list the claim describes: the tracked tool calls sorted
by index. -/
def assembledSortedByIndex (st : SSEParserState) : List AssembledToolCall :=
  (List.insertionSort tcIndexLe st.toolCalls).map (fun tc =>
    { id := tc.id, type := "function", name := tc.name,
      arguments := tc.arguments })

/-- C7 counterexample: the parser returns tool calls in Map insertion
order (order of first appearance), not sorted by index.  For a stream
whose first tool-call delta opens index 1 and whose second opens index 0,
the assembled list is index 1 then index 0, and differs from the
index-ordered list the claim describes, although a tool-call delta was
observed. -/
theorem sse_toolCalls_not_index_ordered :
    (runSSEEvents
        [.chunk ⟨[⟨⟨none, some [⟨1, some "b", some "g", some "y"⟩]⟩, none⟩], none⟩,
          .chunk ⟨[⟨⟨none, some [⟨0, some "a", some "f", some "x"⟩]⟩, none⟩], none⟩]).toolCalls
      = [⟨1, "b", "g", "y"⟩, ⟨0, "a", "f", "x"⟩] ∧
    (runSSEEvents
        [.chunk ⟨[⟨⟨none, some [⟨1, some "b", some "g", some "y"⟩]⟩, none⟩], none⟩,
          .chunk ⟨[⟨⟨none, some [⟨0, some "a", some "f", some "x"⟩]⟩, none⟩], none⟩]).toolCalls
      ≠ [] ∧
    getAssembledMessage
        (runSSEEvents
          [.chunk ⟨[⟨⟨none, some [⟨1, some "b", some "g", some "y"⟩]⟩, none⟩], none⟩,
            .chunk ⟨[⟨⟨none, some [⟨0, some "a", some "f", some "x"⟩]⟩, none⟩], none⟩])
      ≠ { role := "assistant", content := none
          tool_calls := some (assembledSortedByIndex
            (runSSEEvents
              [.chunk ⟨[⟨⟨none, some [⟨1, some "b", some "g", some "y"⟩]⟩, none⟩], none⟩,
                .chunk ⟨[⟨⟨none, some [⟨0, some "a", some "f", some "x"⟩]⟩, none⟩], none⟩])) } := by
  refine ⟨by decide, by decide, by decide⟩

/-- C7 amended: for every SSE stream in which at least one tool-call delta
was observed, the assembled message is role assistant with null content
and the tool-call list in order of first appearance of each index (Map
insertion order, which coincides with index order only when openers
arrive in increasing index order); each entry's arguments string equals
the concatenation, in arrival order, of all argument fragments carried by
deltas with that index, the opener's fragment first and absent fragments
contributing nothing. -/
theorem sse_assembled_message (events : List SSEEvent)
    (h : (runSSEEvents events).toolCalls ≠ []) :
    getAssembledMessage (runSSEEvents events)
      = { role := "assistant", content := none
          tool_calls := some ((runSSEEvents events).toolCalls.map (fun tc =>
            { id := tc.id, type := "function", name := tc.name,
              arguments := tc.arguments })) } ∧
    (runSSEEvents events).toolCalls.map InternalToolCall.index
      = observedIndices (allToolCallDeltas events) ∧
    ∀ itc ∈ (runSSEEvents events).toolCalls,
      itc.arguments = argsConcat itc.index (allToolCallDeltas events) := by
  have hinv := runSSE_TCInv events
  refine ⟨?_, hinv.1, hinv.2⟩
  rw [getAssembledMessage,
    if_neg (fun hemp => h (List.isEmpty_iff.mp hemp))]

/-- Witness for the C7 amended theorem on a stream carrying a tool call
whose arguments are split across two deltas. -/
theorem sse_assembled_message_witness :
    (runSSEEvents
        [.chunk ⟨[⟨⟨none, some [⟨0, some "call_x", some "f", some "\x7b\"a\":"⟩]⟩,
            none⟩], none⟩,
          .chunk ⟨[⟨⟨none, some [⟨0, none, none, some "1\x7d"⟩]⟩, none⟩], none⟩]).toolCalls
      ≠ [] ∧
    getAssembledMessage
        (runSSEEvents
          [.chunk ⟨[⟨⟨none, some [⟨0, some "call_x", some "f", some "\x7b\"a\":"⟩]⟩,
              none⟩], none⟩,
            .chunk ⟨[⟨⟨none, some [⟨0, none, none, some "1\x7d"⟩]⟩, none⟩], none⟩])
      = { role := "assistant", content := none
          tool_calls := some
            [{ id := "call_x", type := "function", name := "f",
               arguments := "\x7b\"a\":1\x7d" }] } := by
  constructor
  · decide
  · rw [(sse_assembled_message
      [.chunk ⟨[⟨⟨none, some [⟨0, some "call_x", some "f", some "\x7b\"a\":"⟩]⟩,
          none⟩], none⟩,
        .chunk ⟨[⟨⟨none, some [⟨0, none, none, some "1\x7d"⟩]⟩, none⟩], none⟩]
      (by decide)).1]
    decide
